import Mathlib

/-!
MachineLearningToolkit: parameter marshalling of the linear classifier and the tied
autoencoder.

Shallow embedding of `src/mlt/linear_classifiers/linear_classifier.h`,
`src/mlt/models/transformers/tied_autoencoder.hpp` and of `loadTheta` in
`src/Projects/KaggleDigitRecognizer/main.cpp`.

Conventions of the embedding.

* Scalars (`double`) are an arbitrary linearly ordered commutative ring `α`: arithmetic is
  exact, rounding and NaN are outside the model.
* Dimensions, sizes and indices (`size_t`, `Eigen::Index`, and the `int` count
  `hidden_units`) are natural numbers: wrap-around of `size_t` and negative counts are
  outside the model.
* A dense Eigen matrix is its shape together with its column-major buffer (Eigen's default
  storage order); a dense Eigen vector is the list of its entries.
* `assert` and Eigen's own shape assertions are active: an operation whose assertion fails
  returns `none`; a setter whose assertion fails returns `Outcome.assertFailed` with the
  state of the object at that point.
* Freshly allocated Eigen storage is not initialised; its contents are an explicit argument
  `uninit : Nat → α` of the operations that allocate.
-/

namespace MLT

/-! ## Dense matrices and vectors -/

/-- Dense dynamic matrix (`Eigen::MatrixXd`): shape and column-major buffer. -/
structure MatrixX (α : Type) where
  rows : Nat
  cols : Nat
  data : List α
  size_eq : data.length = rows * cols
deriving DecidableEq

namespace MatrixX

variable {α : Type}

/-- Number of coefficients, `rows() * cols()`. -/
def size (M : MatrixX α) : Nat := M.rows * M.cols

/-- Coefficient access `M(r, c)` in column-major storage. The operations below only read
coefficients with `r < rows` and `c < cols`; any other read yields `0`. -/
def coeff [Zero α] (M : MatrixX α) (r c : Nat) : α := M.data.getD (c * M.rows + r) 0

/-- Matrix of the given shape whose `(r, c)` coefficient is `f r c`. -/
def ofFn (rows cols : Nat) (f : Nat → Nat → α) : MatrixX α :=
  ⟨rows, cols, (List.range (rows * cols)).map (fun k => f (k % rows) (k / rows)), by simp⟩

/-- View of a buffer as a `rows x cols` matrix, `MatrixXd::Map(ptr, rows, cols)`: coefficient
`(r, c)` is read at offset `c * rows + r`. A read past the end of the buffer (undefined in
C++) yields `0`. -/
def Map [Zero α] (buf : List α) (rows cols : Nat) : MatrixX α :=
  ofFn rows cols (fun r c => buf.getD (c * rows + r) 0)

/-- Transposition, `M.transpose()`. -/
def transpose [Zero α] (M : MatrixX α) : MatrixX α :=
  ofFn M.cols M.rows (fun r c => M.coeff c r)

/-- Coefficient-wise sum `A + B`; Eigen asserts that the shapes agree. -/
def add [Zero α] [Add α] (A B : MatrixX α) : Option (MatrixX α) :=
  if A.rows = B.rows ∧ A.cols = B.cols then
    some (ofFn A.rows A.cols (fun r c => A.coeff r c + B.coeff r c))
  else none

/-- Matrix product `A * B`; Eigen asserts `A.cols() == B.rows()`. -/
def mul [Zero α] [Add α] [Mul α] (A B : MatrixX α) : Option (MatrixX α) :=
  if A.cols = B.rows then
    some (ofFn A.rows B.cols
      (fun r c => ((List.range A.cols).map (fun k => A.coeff r k * B.coeff k c)).sum))
  else none

/-- Scaling by a scalar, `M * s`. -/
def scale [Mul α] (M : MatrixX α) (s : α) : MatrixX α :=
  ⟨M.rows, M.cols, M.data.map (fun x => x * s), by simp [M.size_eq]⟩

/-- Column `i` of the matrix, `M.col(i)`, as a vector. -/
def col (M : MatrixX α) (i : Nat) : List α := (M.data.drop (i * M.rows)).take M.rows

/-- Random matrix `MatrixXd::Random(rows, cols)`; the draws are the argument `rnd`. -/
def Random (rnd : Nat → Nat → α) (rows cols : Nat) : MatrixX α := ofFn rows cols rnd

/-- Freshly allocated matrix `MatrixXd x(rows, cols)`: the buffer holds whatever the
allocator returned. -/
def uninitialized (uninit : Nat → α) (rows cols : Nat) : MatrixX α :=
  ⟨rows, cols, (List.range (rows * cols)).map uninit, by simp⟩

/-- Assignment `M.block(startRow, startCol, blockRows, blockCols) = B`; Eigen asserts that
the block lies inside `M` and that `B` has the shape of the block. -/
def setBlock [Zero α] (M : MatrixX α) (startRow startCol blockRows blockCols : Nat)
    (B : MatrixX α) : Option (MatrixX α) :=
  if startRow + blockRows ≤ M.rows ∧ startCol + blockCols ≤ M.cols
      ∧ B.rows = blockRows ∧ B.cols = blockCols then
    some (ofFn M.rows M.cols (fun r c =>
      if startRow ≤ r ∧ r < startRow + blockRows ∧ startCol ≤ c ∧ c < startCol + blockCols then
        B.coeff (r - startRow) (c - startCol)
      else M.coeff r c))
  else none

/-- Assignment `M.col(i) = v`; Eigen asserts that the column exists and that `v` has
`M.rows()` entries. -/
def setCol [Zero α] (M : MatrixX α) (i : Nat) (v : List α) : Option (MatrixX α) :=
  if i < M.cols ∧ v.length = M.rows then
    some (ofFn M.rows M.cols (fun r c => if c = i then v.getD r 0 else M.coeff r c))
  else none

end MatrixX

/-- View of a buffer as a vector of `n` entries, `VectorXd::Map(ptr, n)`. A read past the end
of the buffer (undefined in C++) yields `0`. -/
def VectorX.Map {α : Type} [Zero α] (buf : List α) (n : Nat) : List α :=
  (List.range n).map (fun k => buf.getD k 0)

/-- Vector of ones, `VectorXd::Ones(n)`. -/
def VectorX.Ones {α : Type} [One α] (n : Nat) : List α := List.replicate n 1

/-- Freshly allocated vector `VectorXd v(n)`: the buffer holds whatever the allocator
returned. -/
def VectorX.uninitialized {α : Type} (uninit : Nat → α) (n : Nat) : List α :=
  (List.range n).map uninit

/-- Read of `v.block(start, 0, len, 1)`; Eigen asserts that the block lies inside `v`. -/
def VectorX.block {α : Type} (v : List α) (start len : Nat) : Option (List α) :=
  if start + len ≤ v.length then some ((v.drop start).take len) else none

/-- Assignment `v.block(start, 0, len, 1) = src`; Eigen asserts that the block lies inside
`v` and that `src` has `len` entries. -/
def VectorX.setBlock {α : Type} (v : List α) (start len : Nat) (src : List α) :
    Option (List α) :=
  if start + len ≤ v.length ∧ src.length = len then
    some (v.take start ++ src ++ v.drop (start + len))
  else none

/-- Broadcast sum `M.colwise() + v`; Eigen asserts that `v` has `M.rows()` entries. -/
def MatrixX.colwiseAdd {α : Type} [Zero α] [Add α] (M : MatrixX α) (v : List α) :
    Option (MatrixX α) :=
  if v.length = M.rows then
    some (MatrixX.ofFn M.rows M.cols (fun r c => M.coeff r c + v.getD r 0))
  else none

/-- Modelled from the spec: `utils/eigen.hpp` is not among the sources; `ravel(matrix)` is
the column-major flattening of the matrix. -/
def ravel {α : Type} (M : MatrixX α) : List α := M.data

/-- Modelled from the spec: `utils/eigen.hpp` is not among the sources;
`unravel(vector, rows, cols)` is the inverse of `ravel`: the `rows x cols` matrix whose
column-major flattening is the vector. -/
def unravel {α : Type} [Zero α] (v : List α) (rows cols : Nat) : MatrixX α :=
  MatrixX.Map v rows cols

/-- Scan of `maxCoeff(&row, &col)` over the remaining coefficients: the running maximum is
replaced only by a strictly greater coefficient. -/
def maxCoeffScan {α : Type} [LinearOrder α] : List α → α → Nat → Nat → α × Nat
  | [], best, bestIdx, _ => (best, bestIdx)
  | y :: ys, best, bestIdx, i =>
    if best < y then maxCoeffScan ys y i (i + 1) else maxCoeffScan ys best bestIdx (i + 1)

/-- Maximum of a vector with the index where it is found, `v.maxCoeff(&row, &col)`; Eigen
asserts that the vector is not empty. -/
def maxCoeff {α : Type} [LinearOrder α] : List α → Option (α × Nat)
  | [] => none
  | x :: xs => some (maxCoeffScan xs x 0 1)

/-- Result of a mutating member function: it returns normally in state `s`, or one of its
assertions fails and the object is left in the state `s` it had at that point. -/
inductive Outcome (σ : Type) where
  | ok (s : σ) : Outcome σ
  | assertFailed (s : σ) : Outcome σ
deriving DecidableEq

/-! ## Linear classifier (`linear_classifier.h`) -/

/-- Data members of `LinearClassifier`. -/
structure LinearClassifier (α : Type) where
  _input : Nat
  _output : Nat
  _theta : MatrixX α
deriving DecidableEq

namespace LinearClassifier

variable {α : Type} [LinearOrderedCommRing α]

/-- Constructor `LinearClassifier(input, output, initial_epsilon)`; `rnd` are the draws of
`MatrixXd::Random`. -/
def ctor (rnd : Nat → Nat → α) (input output : Nat) (initial_epsilon : α) :
    Option (LinearClassifier α) :=
  if 0 < input then
    if 1 < output then
      some ⟨input, output, (MatrixX.Random rnd output (input + 1)).scale initial_epsilon⟩
    else none
  else none

/-- Member `_score(theta, x)`: `theta * x.transpose()`. -/
def _score (self : LinearClassifier α) (theta x : MatrixX α) : Option (MatrixX α) :=
  if x.cols = self._input + 1 then theta.mul x.transpose else none

/-- Member `classify(features, confidences)`: the returned pair is the classification vector
and the value left in `confidences`. -/
def classify (self : LinearClassifier α) (uninit : Nat → α) (features : MatrixX α) :
    Option (List Nat × MatrixX α) :=
  if features.cols = self._input then do
    let x := MatrixX.uninitialized uninit features.rows (features.cols + 1)
    let x ← x.setBlock 0 1 features.rows features.cols features
    let x ← x.setCol 0 (VectorX.Ones features.rows)
    let confidences ← self._score self._theta x
    let classification ← (List.range confidences.cols).mapM
      (fun i => (maxCoeff (confidences.col i)).map Prod.snd)
    pure (classification, confidences)
  else none

/-- Member `classify(features)`: the confidences are discarded. -/
def classify1 (self : LinearClassifier α) (uninit : Nat → α) (features : MatrixX α) :
    Option (List Nat) :=
  (self.classify uninit features).map Prod.fst

/-- Member `parameters()`. -/
def parameters (self : LinearClassifier α) : List α :=
  VectorX.Map self._theta.data self._theta.size

/-- Member `set_parameters(parameters)`. -/
def set_parameters (self : LinearClassifier α) (parameters : List α) :
    Outcome (LinearClassifier α) :=
  if parameters.length = self._theta.size then
    .ok { self with _theta := MatrixX.Map parameters self._output (self._input + 1) }
  else .assertFailed self

/-- Member `theta()`. -/
def theta (self : LinearClassifier α) : MatrixX α := self._theta

/-- Member `set_theta(theta)`. -/
def set_theta (self : LinearClassifier α) (theta : MatrixX α) : Outcome (LinearClassifier α) :=
  if theta.rows = self._output then
    if theta.cols = self._input + 1 then .ok { self with _theta := theta }
    else .assertFailed self
  else .assertFailed self

/-- States of a classifier built by `LinearClassifier(input, output, _)` and then changed
only through calls of `set_parameters` and `set_theta` that return normally. -/
inductive Reachable (input output : Nat) : LinearClassifier α → Prop where
  | ctor (rnd : Nat → Nat → α) (eps : α) (c : LinearClassifier α)
      (h : LinearClassifier.ctor rnd input output eps = some c) : Reachable input output c
  | set_parameters (c c' : LinearClassifier α) (v : List α) (hc : Reachable input output c)
      (h : c.set_parameters v = .ok c') : Reachable input output c'
  | set_theta (c c' : LinearClassifier α) (M : MatrixX α) (hc : Reachable input output c)
      (h : c.set_theta M = .ok c') : Reachable input output c'

end LinearClassifier

/-! ## Tied autoencoder (`tied_autoencoder.hpp`) -/

/-- Modelled from the spec: `implementations/autoencoder.hpp` is not among the sources. The
autoencoder-math collaborator takes the two activations, encode weights, hidden intercepts,
decode weights, reconstruction intercepts, regularization, input and target; it treats the
encode and decode weights as independent and returns a loss, the four gradient blocks
`(weights_grad, hid_inter_grad, weights_transp_grad, rec_inter_grad)`, or both. -/
structure AutoencoderImpl (H R α : Type) where
  loss : H → R → MatrixX α → List α → MatrixX α → List α → α → MatrixX α → MatrixX α → α
  gradient : H → R → MatrixX α → List α → MatrixX α → List α → α → MatrixX α → MatrixX α →
    MatrixX α × List α × MatrixX α × List α
  loss_and_gradient : H → R → MatrixX α → List α → MatrixX α → List α → α → MatrixX α →
    MatrixX α → α × MatrixX α × List α × MatrixX α × List α

/-- Data members of `TiedAutoencoder<HiddenActivation, ReconstructionActivation, Optimizer>`;
`_fitted` is the flag of the `Transformer` base. -/
structure TiedAutoencoder (H R O α : Type) where
  _hidden_units : Nat
  _hidden_activation : H
  _reconstruction_activation : R
  _optimizer : O
  _regularization : α
  _weights : MatrixX α
  _hidden_intercepts : List α
  _reconstruction_intercepts : List α
  _fitted : Bool

namespace TiedAutoencoder

variable {H R O α : Type} [LinearOrderedCommRing α]

/-- Constructor `TiedAutoencoder(hidden_units, hidden_activation, reconstruction_activation,
optimizer, regularization)`: the parameters are default-constructed (empty) and the model is
not fitted. -/
def ctor (hidden_units : Nat) (hidden_activation : H) (reconstruction_activation : R)
    (optimizer : O) (regularization : α) : TiedAutoencoder H R O α :=
  { _hidden_units := hidden_units, _hidden_activation := hidden_activation,
    _reconstruction_activation := reconstruction_activation, _optimizer := optimizer,
    _regularization := regularization, _weights := MatrixX.ofFn 0 0 (fun _ _ => 0),
    _hidden_intercepts := [], _reconstruction_intercepts := [], _fitted := false }

/-- Member `transform(input)`; `compute` is `HiddenActivation::compute`. -/
def transform (compute : H → MatrixX α → MatrixX α) (self : TiedAutoencoder H R O α)
    (input : MatrixX α) : Option (MatrixX α) :=
  if self._fitted then do
    let product ← self._weights.mul input
    let shifted ← product.colwiseAdd self._hidden_intercepts
    pure (compute self._hidden_activation shifted)
  else none

/-- Initial vector built by `fit(input, cold_start)` before the optimizer is called. `rnd`
are the draws of `setRandom` and `scale (hidden_units + input.rows())` is the map
`x * 4 / sqrt(6.0 / (hidden_units + input.rows()))`. -/
def fitInit (uninit rnd : Nat → α) (scale : Nat → α → α) (self : TiedAutoencoder H R O α)
    (input : MatrixX α) (cold_start : Bool) : Option (List α) :=
  let init := VectorX.uninitialized uninit
    (self._hidden_units * input.rows + self._hidden_units + input.rows)
  if self._fitted && !cold_start then do
    let init ← VectorX.setBlock init 0 self._weights.size (ravel self._weights)
    let init ← VectorX.setBlock init self._weights.size self._hidden_intercepts.length
      self._hidden_intercepts
    VectorX.setBlock init (self._weights.size + self._hidden_intercepts.length)
      self._reconstruction_intercepts.length self._reconstruction_intercepts
  else
    some ((List.range init.length).map
      (fun k => scale (self._hidden_units + input.rows) (rnd k)))

/-- Tail of `fit(input, cold_start)`: the optimizer's result `coeffs` is unravelled into the
model and the model is marked fitted. -/
def fitStore (self : TiedAutoencoder H R O α) (input : MatrixX α) (coeffs : List α) :
    Option (TiedAutoencoder H R O α) := do
  let w ← VectorX.block coeffs 0 (self._hidden_units * input.rows)
  let hi ← VectorX.block coeffs (self._hidden_units * input.rows) self._hidden_units
  let ri ← VectorX.block coeffs (self._hidden_units * input.rows + self._hidden_units)
    input.rows
  pure { self with
    _weights := unravel w self._hidden_units input.rows
    _hidden_intercepts := hi
    _reconstruction_intercepts := ri
    _fitted := true }

/-- Member `fit(input, cold_start)`; `optimizer` is the call operator of the `Optimizer`
component, applied to the model itself, `input` twice, the initial vector and
`cold_start`. -/
def fit (optimizer : O → TiedAutoencoder H R O α → MatrixX α → MatrixX α → List α → Bool →
      List α)
    (uninit rnd : Nat → α) (scale : Nat → α → α) (self : TiedAutoencoder H R O α)
    (input : MatrixX α) (cold_start : Bool) : Option (TiedAutoencoder H R O α) := do
  let init ← self.fitInit uninit rnd scale input cold_start
  let coeffs := optimizer self._optimizer self input input init cold_start
  self.fitStore input coeffs

/-- Member `loss(coeffs, input, target)`. -/
def loss (impl : AutoencoderImpl H R α) (self : TiedAutoencoder H R O α) (coeffs : List α)
    (input target : MatrixX α) : Option α := do
  let w ← VectorX.block coeffs 0 (self._hidden_units * input.rows)
  let weights := unravel w self._hidden_units input.rows
  let hidden_intercepts ←
    VectorX.block coeffs (self._hidden_units * input.rows) self._hidden_units
  let reconstruction_intercepts ←
    VectorX.block coeffs (self._hidden_units * input.rows + self._hidden_units) input.rows
  pure (impl.loss self._hidden_activation self._reconstruction_activation weights
    hidden_intercepts weights.transpose reconstruction_intercepts self._regularization
    input target)

/-- Member `gradient(coeffs, input, target)`. -/
def gradient (impl : AutoencoderImpl H R α) (uninit : Nat → α)
    (self : TiedAutoencoder H R O α) (coeffs : List α) (input target : MatrixX α) :
    Option (List α) := do
  let w ← VectorX.block coeffs 0 (self._hidden_units * input.rows)
  let weights := unravel w self._hidden_units input.rows
  let hidden_intercepts ←
    VectorX.block coeffs (self._hidden_units * input.rows) self._hidden_units
  let reconstruction_intercepts ←
    VectorX.block coeffs (self._hidden_units * input.rows + self._hidden_units) input.rows
  let (weights_grad, hid_inter_grad, weights_transp_grad, rec_inter_grad) :=
    impl.gradient self._hidden_activation self._reconstruction_activation weights
      hidden_intercepts weights.transpose reconstruction_intercepts self._regularization
      input target
  let gradient := VectorX.uninitialized uninit coeffs.length
  let sum ← weights_grad.add weights_transp_grad.transpose
  let gradient ← VectorX.setBlock gradient 0 weights_grad.size (ravel sum)
  let gradient ← VectorX.setBlock gradient weights_grad.size hid_inter_grad.length
    hid_inter_grad
  VectorX.setBlock gradient (weights_grad.size + hid_inter_grad.length)
    rec_inter_grad.length rec_inter_grad

/-- Member `loss_and_gradient(coeffs, input, target)`. -/
def loss_and_gradient (impl : AutoencoderImpl H R α) (uninit : Nat → α)
    (self : TiedAutoencoder H R O α) (coeffs : List α) (input target : MatrixX α) :
    Option (α × List α) := do
  let w ← VectorX.block coeffs 0 (self._hidden_units * input.rows)
  let weights := unravel w self._hidden_units input.rows
  let hidden_intercepts ←
    VectorX.block coeffs (self._hidden_units * input.rows) self._hidden_units
  let reconstruction_intercepts ←
    VectorX.block coeffs (self._hidden_units * input.rows + self._hidden_units) input.rows
  let (loss, weights_grad, hid_inter_grad, weights_transp_grad, rec_inter_grad) :=
    impl.loss_and_gradient self._hidden_activation self._reconstruction_activation weights
      hidden_intercepts weights.transpose reconstruction_intercepts self._regularization
      input target
  let gradient := VectorX.uninitialized uninit coeffs.length
  let sum ← weights_grad.add weights_transp_grad.transpose
  let gradient ← VectorX.setBlock gradient 0 weights_grad.size (ravel sum)
  let gradient ← VectorX.setBlock gradient weights_grad.size hid_inter_grad.length
    hid_inter_grad
  let gradient ← VectorX.setBlock gradient (weights_grad.size + hid_inter_grad.length)
    rec_inter_grad.length rec_inter_grad
  pure (loss, gradient)

/-- States of a model built by the constructor and then changed only through calls of `fit`
that return normally; the optimizer may return anything. -/
inductive Reachable
    (optimizer : O → TiedAutoencoder H R O α → MatrixX α → MatrixX α → List α → Bool → List α) :
    TiedAutoencoder H R O α → Prop where
  | ctor (hidden_units : Nat) (ha : H) (ra : R) (o : O) (reg : α) :
      Reachable optimizer (TiedAutoencoder.ctor hidden_units ha ra o reg)
  | fit (m m' : TiedAutoencoder H R O α) (uninit rnd : Nat → α) (scale : Nat → α → α)
      (input : MatrixX α) (cold_start : Bool) (hm : Reachable optimizer m)
      (h : m.fit optimizer uninit rnd scale input cold_start = some m') :
      Reachable optimizer m'

end TiedAutoencoder

/-! ## Concrete instances over the integers -/

namespace Example

/-- Draws used for `MatrixXd::Random`. -/
def draws : Nat → Nat → ℤ := fun r c => if r = 0 then 0 else (c : ℤ)

/-- Classifier with `input = 2`, `output = 3` as left by its constructor. -/
def classifier : LinearClassifier ℤ :=
  ⟨2, 3, (MatrixX.Random draws 3 3).scale 1⟩

/-- Two examples with two features each. -/
def features : MatrixX ℤ := ⟨2, 2, [1, 2, 3, 4], rfl⟩

/-- Collaborator whose loss is the sum of the intercepts and whose gradient blocks are the
parameters themselves. -/
def impl : AutoencoderImpl Unit Unit ℤ where
  loss := fun _ _ _ hi _ ri _ _ _ => hi.sum + ri.sum
  gradient := fun _ _ W hi Wt ri _ _ _ => (W, hi, Wt, ri)
  loss_and_gradient := fun _ _ W hi Wt ri _ _ _ => (hi.sum + ri.sum, W, hi, Wt, ri)

/-- Optimizer that returns its initial vector unchanged. -/
def optimizer : Unit → TiedAutoencoder Unit Unit Unit ℤ → MatrixX ℤ → MatrixX ℤ → List ℤ →
    Bool → List ℤ :=
  fun _ _ _ _ init _ => init

/-- Contents of fresh storage. -/
def uninit : Nat → ℤ := fun _ => 7

/-- Draws used for `setRandom`. -/
def rnd : Nat → ℤ := fun k => k

/-- Stand-in for the scaling of the random initial vector. -/
def scale : Nat → ℤ → ℤ := fun _ x => x

/-- Model with one hidden unit as left by its constructor. -/
def fresh : TiedAutoencoder Unit Unit Unit ℤ := TiedAutoencoder.ctor 1 () () () 0

/-- Input with three rows and one column. -/
def input3 : MatrixX ℤ := ⟨3, 1, [1, 2, 3], rfl⟩

/-- Input with two rows and one column. -/
def input2 : MatrixX ℤ := ⟨2, 1, [1, 2], rfl⟩

/-- Input with one row and one column. -/
def input1 : MatrixX ℤ := ⟨1, 1, [1], rfl⟩

/-- The model `fresh` after `fit(input3)` with the optimizer above. -/
def fitted3 : TiedAutoencoder Unit Unit Unit ℤ :=
  { fresh with
    _weights := unravel [0, 1, 2] 1 3
    _hidden_intercepts := [3]
    _reconstruction_intercepts := [4, 5, 6]
    _fitted := true }

end Example

/-! ## Parameter files (`Projects/KaggleDigitRecognizer/main.cpp`)

`loadTheta` does raw binary input, so this part works on bytes. A byte is a natural number
below 256; an object of type `Eigen::MatrixXd::Index` occupies 8 bytes (little-endian two's
complement) and a `double` occupies 8 bytes. The locals `rows` and `cols` are not initialised;
their contents before the reads are the arguments `stackRows` and `stackCols`. -/

namespace KaggleDigitRecognizer

/-- Size of `Eigen::MatrixXd::Index`, `sizeof(rows)`. -/
def sizeofIndex : Nat := 8

/-- Size of `Eigen::MatrixXd::Scalar`. -/
def sizeofScalar : Nat := 8

/-- Value of an `Index` object given its bytes. -/
def decodeIndex (bs : List Nat) : Int :=
  let u : Nat := bs.foldr (fun b acc => b + 256 * acc) 0
  if u < 2 ^ 63 then (u : Int) else (u : Int) - 2 ^ 64

/-- A `MatrixXd` as raw input sees it: its shape and the bytes of its buffer. -/
structure MatrixBytes where
  rows : Nat
  cols : Nat
  bytes : List Nat
deriving DecidableEq

/-- A file on disk: its bytes, and whether the device reports a read error (rather than the
end of the file) once they are exhausted; `none` below stands for a file that cannot be
opened. -/
structure File where
  bytes : List Nat
  deviceError : Bool
deriving DecidableEq

/-- State of a `std::ifstream`: the bytes not yet extracted and the three state flags. -/
structure IfStream where
  pending : List Nat
  deviceError : Bool
  eofbit : Bool
  failbit : Bool
  badbit : Bool
deriving DecidableEq

namespace IfStream

/-- Constructor `std::ifstream f(file, std::ios::binary)`: a file that cannot be opened sets
`failbit`. -/
def ctor : Option File → IfStream
  | some file => ⟨file.bytes, file.deviceError, false, false, false⟩
  | none => ⟨[], false, false, true, false⟩

/-- Member `bad()`. -/
def bad (f : IfStream) : Bool := f.badbit

/-- Member `read(s, n)` of `std::istream`; `buf` is what the `n` destination bytes hold before
the call and the second component is what they hold after it. A stream that is not good
sets `failbit` and stores nothing; a stream that ends before `n` bytes stores the bytes it
has and sets `eofbit` and `failbit`; a device error sets `badbit`. -/
def read (f : IfStream) (buf : List Nat) (n : Nat) : IfStream × List Nat :=
  if f.eofbit || f.failbit || f.badbit then
    ({ f with failbit := true }, buf)
  else if n ≤ f.pending.length then
    ({ f with pending := f.pending.drop n }, f.pending.take n ++ buf.drop n)
  else if f.deviceError then
    ({ f with pending := [], badbit := true }, f.pending ++ buf.drop f.pending.length)
  else
    ({ f with pending := [], eofbit := true, failbit := true },
      f.pending ++ buf.drop f.pending.length)

end IfStream

/-- How a call of `resize` ends. -/
inductive ResizeResult where
  | ok (m : MatrixBytes) : ResizeResult
  | badAlloc : ResizeResult
  | assertFailed : ResizeResult
deriving DecidableEq

/-- Member `resize(rows, cols)` of `MatrixXd`: Eigen asserts that both are non-negative, keeps
the buffer when the number of coefficients does not change, allocates nothing for an empty
matrix, and otherwise allocates a fresh buffer, throwing `std::bad_alloc` when that fails.
`canAllocate n` tells whether `n` coefficients can be allocated and `uninit` is what a fresh
buffer holds. -/
def resize (uninit : Nat → Nat) (canAllocate : Nat → Bool) (m : MatrixBytes)
    (rows cols : Int) : ResizeResult :=
  if rows < 0 ∨ cols < 0 then .assertFailed
  else if rows.toNat * cols.toNat = m.rows * m.cols then
    .ok { m with rows := rows.toNat, cols := cols.toNat }
  else if rows.toNat * cols.toNat = 0 then .ok ⟨rows.toNat, cols.toNat, []⟩
  else if canAllocate (rows.toNat * cols.toNat) then
    .ok ⟨rows.toNat, cols.toNat,
      (List.range (sizeofScalar * (rows.toNat * cols.toNat))).map uninit⟩
  else .badAlloc

/-- How a call of `loadTheta` ends: it returns with `theta` as given, it throws
`"Error reading matrix"`, `resize` throws `std::bad_alloc`, or an assertion of `resize`
fails. -/
inductive LoadResult where
  | returned (theta : List MatrixBytes) : LoadResult
  | threwErrorReadingMatrix : LoadResult
  | threwBadAlloc : LoadResult
  | assertFailed : LoadResult
deriving DecidableEq

/-- Loop of `loadTheta` from index `i` on: `loaded` are the matrices `theta[0 .. i)` as already
overwritten and the last argument holds `theta[i ..]`. -/
def loadThetaLoop (uninit : Nat → Nat) (canAllocate : Nat → Bool)
    (stackRows stackCols : Nat → List Nat) :
    IfStream → Nat → List MatrixBytes → List MatrixBytes → LoadResult
  | _, _, loaded, [] => .returned loaded
  | f, i, loaded, m :: rest =>
    let (f, rowsBytes) := f.read (stackRows i) sizeofIndex
    let (f, colsBytes) := f.read (stackCols i) sizeofIndex
    let rows := decodeIndex rowsBytes
    let cols := decodeIndex colsBytes
    match resize uninit canAllocate m rows cols with
    | .assertFailed => .assertFailed
    | .badAlloc => .threwBadAlloc
    | .ok m =>
      let (f, bytes) := f.read m.bytes (sizeofScalar * rows.toNat * cols.toNat)
      if f.bad then .threwErrorReadingMatrix
      else loadThetaLoop uninit canAllocate stackRows stackCols f (i + 1)
        (loaded ++ [{ m with bytes := bytes }]) rest

/-- Function `loadTheta(theta, file)`. -/
def loadTheta (uninit : Nat → Nat) (canAllocate : Nat → Bool)
    (stackRows stackCols : Nat → List Nat) (theta : List MatrixBytes) (file : Option File) :
    LoadResult :=
  loadThetaLoop uninit canAllocate stackRows stackCols (IfStream.ctor file) 0 [] theta

namespace Example

/-- Contents of fresh heap storage. -/
def heap : Nat → Nat := fun _ => 170

/-- Allocator that always succeeds. -/
def canAllocate : Nat → Bool := fun _ => true

/-- Stack contents found in `rows`: zero. -/
def stackRows : Nat → List Nat := fun _ => [0, 0, 0, 0, 0, 0, 0, 0]

/-- Stack contents found in `cols`: one. -/
def stackCols : Nat → List Nat := fun _ => [1, 0, 0, 0, 0, 0, 0, 0]

/-- A list of one empty matrix to be loaded. -/
def theta : List MatrixBytes := [⟨0, 0, []⟩]

/-- File of one `1 x 1` matrix cut after three of the eight bytes of its coefficient. -/
def payloadCut : File :=
  ⟨[1, 0, 0, 0, 0, 0, 0, 0, 1, 0, 0, 0, 0, 0, 0, 0, 17, 34, 51], false⟩

/-- File cut after four of the eight bytes of the row count `2`. -/
def headerCut : File := ⟨[2, 0, 0, 0], false⟩

/-- The same bytes as `payloadCut` on a device that reports a read error where they end. -/
def payloadError : File :=
  ⟨[1, 0, 0, 0, 0, 0, 0, 0, 1, 0, 0, 0, 0, 0, 0, 0, 17, 34, 51], true⟩

end Example

end KaggleDigitRecognizer

/-! ## Basic facts about matrices -/

namespace MatrixX

variable {α : Type}

theorem ext_data {A B : MatrixX α} (hr : A.rows = B.rows) (hc : A.cols = B.cols)
    (hd : A.data = B.data) : A = B := by
  cases A; cases B; simp_all

@[simp]
theorem ofFn_rows (r c : Nat) (f : Nat → Nat → α) : (ofFn r c f).rows = r := rfl
@[simp]
theorem ofFn_cols (r c : Nat) (f : Nat → Nat → α) : (ofFn r c f).cols = c := rfl

theorem index_lt {r c i j : Nat} (hi : i < r) (hj : j < c) : j * r + i < r * c := by
  calc j * r + i < j * r + r := by omega
    _ = (j + 1) * r := by ring
    _ ≤ c * r := Nat.mul_le_mul_right r hj
    _ = r * c := Nat.mul_comm c r

theorem ofFn_coeff [Zero α] (r c : Nat) (f : Nat → Nat → α) {i j : Nat} (hi : i < r)
    (hj : j < c) : (ofFn r c f).coeff i j = f i j := by
  have hlt := index_lt hi hj
  have hmod : (j * r + i) % r = i := by
    rw [Nat.add_comm, Nat.add_mul_mod_self_right]; exact Nat.mod_eq_of_lt hi
  have hdiv : (j * r + i) / r = j := by
    rw [Nat.add_comm, Nat.add_mul_div_right _ _ (by omega : 0 < r), Nat.div_eq_of_lt hi]; simp
  simp [coeff, ofFn, List.getD_eq_getElem?_getD, hlt, hmod, hdiv]

theorem Map_data [Zero α] (buf : List α) (r c : Nat) (h : buf.length = r * c) :
    (Map buf r c).data = buf := by
  apply List.ext_getElem
  · simp [Map, ofFn, h]
  · intro k h1 h2
    have hk : k < r * c := by simpa [Map, ofFn] using h1
    have hr : 0 < r := by
      rcases Nat.eq_zero_or_pos r with h0 | h0
      · subst h0; simp at hk
      · exact h0
    have : k / r * r + k % r = k := Nat.div_add_mod' k r
    simp [Map, ofFn, List.getD_eq_getElem?_getD, this, h2]

end MatrixX

/-! ## `maxCoeff` finds the first maximum -/

theorem maxCoeffScan_spec {α : Type} [LinearOrder α] (ys : List α) :
    ∀ (best : α) (bi i : Nat),
      ((maxCoeffScan ys best bi i).1 = best ∧ (maxCoeffScan ys best bi i).2 = bi
          ∧ ∀ y ∈ ys, y ≤ best)
      ∨ ∃ j, (maxCoeffScan ys best bi i).2 = i + j
          ∧ ys[j]? = some (maxCoeffScan ys best bi i).1
          ∧ best < (maxCoeffScan ys best bi i).1
          ∧ (∀ (q : Nat) z, q < j → ys[q]? = some z → z < (maxCoeffScan ys best bi i).1)
          ∧ ∀ y ∈ ys, y ≤ (maxCoeffScan ys best bi i).1 := by
  induction ys with
  | nil => intro best bi i; left; simp [maxCoeffScan]
  | cons y ys ih =>
    intro best bi i
    by_cases hlt : best < y
    · simp only [maxCoeffScan, hlt, if_true]
      right
      rcases ih y i (i + 1) with ⟨hv, hidx, hall⟩ | ⟨j, hidx, hj, hbest, hbefore, hall⟩
      · refine ⟨0, by simp [hidx], by simp [hv], by simp [hv, hlt], by simp, ?_⟩
        intro z hz
        rw [hv]
        rcases List.mem_cons.mp hz with rfl | hz
        · exact le_rfl
        · exact hall z hz
      · refine ⟨j + 1, by omega, by simpa using hj, lt_trans hlt hbest, ?_, ?_⟩
        · intro q z hq hz
          cases q with
          | zero => simp at hz; subst hz; exact hbest
          | succ q => exact hbefore q z (by omega) (by simpa using hz)
        · intro z hz
          rcases List.mem_cons.mp hz with rfl | hz
          · exact le_of_lt hbest
          · exact hall z hz
    · simp only [maxCoeffScan, hlt, if_false]
      have hle : y ≤ best := not_lt.mp hlt
      rcases ih best bi (i + 1) with ⟨hv, hidx, hall⟩ | ⟨j, hidx, hj, hbest, hbefore, hall⟩
      · left
        refine ⟨hv, hidx, ?_⟩
        intro z hz
        rcases List.mem_cons.mp hz with rfl | hz
        · exact hle
        · exact hall z hz
      · right
        refine ⟨j + 1, by omega, by simpa using hj, hbest, ?_, ?_⟩
        · intro q z hq hz
          cases q with
          | zero => simp at hz; subst hz; exact lt_of_le_of_lt hle hbest
          | succ q => exact hbefore q z (by omega) (by simpa using hz)
        · intro z hz
          rcases List.mem_cons.mp hz with rfl | hz
          · exact le_trans hle (le_of_lt hbest)
          · exact hall z hz

/-- The index found by `maxCoeff` is the first position of the maximum. -/
theorem maxCoeff_spec {α : Type} [LinearOrder α] (l : List α) (hl : l ≠ []) :
    ∃ v idx, maxCoeff l = some (v, idx) ∧ l[idx]? = some v
      ∧ (∀ (q : Nat) z, l[q]? = some z → z ≤ v) ∧ ∀ (q : Nat) z, q < idx → l[q]? = some z → z < v := by
  cases l with
  | nil => exact absurd rfl hl
  | cons x xs =>
    refine ⟨(maxCoeffScan xs x 0 1).1, (maxCoeffScan xs x 0 1).2, rfl, ?_⟩
    rcases maxCoeffScan_spec xs x 0 1 with ⟨hv, hidx, hall⟩ | ⟨j, hidx, hj, hbest, hbefore, hall⟩
    · rw [hv, hidx]
      refine ⟨by simp, ?_, by intro q z hq; omega⟩
      intro q z hz
      cases q with
      | zero => simp at hz; subst hz; exact le_rfl
      | succ q => exact hall z (List.getElem?_mem (by simpa using hz))
    · rw [hidx]
      refine ⟨by simpa [Nat.add_comm 1 j] using hj, ?_, ?_⟩
      · intro q z hz
        cases q with
        | zero => simp at hz; subst hz; exact le_of_lt hbest
        | succ q => exact hall z (List.getElem?_mem (by simpa using hz))
      · intro q z hq hz
        cases q with
        | zero => simp at hz; subst hz; exact hbest
        | succ q => exact hbefore q z (by omega) (by simpa using hz)

/-! ## Linear classifier: results -/

theorem VectorX.Map_eq {α : Type} [Zero α] (buf : List α) (n : Nat) (h : buf.length = n) :
    VectorX.Map buf n = buf := by
  apply List.ext_getElem
  · simp [VectorX.Map, h]
  · intro k h1 h2
    simp [VectorX.Map, List.getD_eq_getElem?_getD, h2]

theorem mapM_option_eq_some {β γ : Type} (f : β → Option γ) (g : β → γ) (l : List β)
    (h : ∀ x ∈ l, f x = some (g x)) : l.mapM f = some (l.map g) := by
  induction l with
  | nil => rfl
  | cons x xs ih =>
    have hx : f x = some (g x) := h x (List.mem_cons_self x xs)
    have hxs : xs.mapM f = some (xs.map g) := ih (fun y hy => h y (List.mem_cons_of_mem x hy))
    rw [List.mapM_cons, hx, hxs]
    rfl

theorem list_sum_range_eq {β : Type} [AddCommMonoid β] (f : Nat → β) (n : Nat) :
    ((List.range n).map f).sum = ∑ k in Finset.range n, f k := by
  induction n with
  | zero => simp
  | succ n ih => simp [List.range_succ, Finset.sum_range_succ, ih]

namespace MatrixX

variable {α : Type}

theorem coeff_eq_getElem? [Zero α] (M : MatrixX α) {r c : Nat} (hr : r < M.rows)
    (hc : c < M.cols) : M.data[c * M.rows + r]? = some (M.coeff r c) := by
  have hlt : c * M.rows + r < M.data.length := by
    rw [M.size_eq]; exact index_lt hr hc
  simp [coeff, List.getD_eq_getElem?_getD, hlt]

theorem col_length (M : MatrixX α) {i : Nat} (hi : i < M.cols) : (M.col i).length = M.rows := by
  have : i * M.rows + M.rows ≤ M.data.length := by
    rw [M.size_eq]
    calc i * M.rows + M.rows = (i + 1) * M.rows := by ring
      _ ≤ M.cols * M.rows := Nat.mul_le_mul_right _ hi
      _ = M.rows * M.cols := Nat.mul_comm _ _
  simp [col]; omega

theorem col_getElem? [Zero α] (M : MatrixX α) {i q : Nat} (hi : i < M.cols) (hq : q < M.rows) :
    (M.col i)[q]? = some (M.coeff q i) := by
  rw [← coeff_eq_getElem? M hq hi]
  simp [col, List.getElem?_take, hq, List.getElem?_drop]

theorem uninitialized_rows (u : Nat → α) (r c : Nat) : (uninitialized u r c).rows = r := rfl

theorem uninitialized_cols (u : Nat → α) (r c : Nat) : (uninitialized u r c).cols = c := rfl

/-- The matrix `x` built by `classify`: a column of ones followed by the features. -/
theorem bias_matrix [Zero α] [One α] (u : Nat → α) (F : MatrixX α) :
    ∃ x1 x, (uninitialized u F.rows (F.cols + 1)).setBlock 0 1 F.rows F.cols F = some x1
      ∧ x1.setCol 0 (VectorX.Ones F.rows) = some x
      ∧ x.rows = F.rows ∧ x.cols = F.cols + 1
      ∧ ∀ i j, i < F.rows → j < F.cols + 1 →
          x.coeff i j = if j = 0 then 1 else F.coeff i (j - 1) := by
  have h1 : 0 + F.rows ≤ (uninitialized u F.rows (F.cols + 1)).rows
      ∧ 1 + F.cols ≤ (uninitialized u F.rows (F.cols + 1)).cols
      ∧ F.rows = F.rows ∧ F.cols = F.cols :=
    ⟨by simp [uninitialized_rows], by simp [uninitialized_cols]; omega, rfl, rfl⟩
  have h2 : 0 < F.cols + 1 ∧ (VectorX.Ones F.rows : List α).length = F.rows := by
    simp [VectorX.Ones]
  refine ⟨_, _, if_pos h1, if_pos h2, rfl, rfl, ?_⟩
  intro i j hi hj
  simp only [ofFn_rows, ofFn_cols, uninitialized_rows, uninitialized_cols]
  rw [ofFn_coeff _ _ _ hi hj]
  by_cases hj0 : j = 0
  · simp [hj0, VectorX.Ones, List.getD_eq_getElem?_getD, hi]
  · rw [if_neg hj0, if_neg hj0, ofFn_coeff _ _ _ hi hj]
    have hin : 0 ≤ i ∧ i < 0 + F.rows ∧ 1 ≤ j ∧ j < 1 + F.cols := by omega
    rw [if_pos hin, Nat.sub_zero]

theorem transpose_coeff [Zero α] (M : MatrixX α) {r c : Nat} (hr : r < M.cols)
    (hc : c < M.rows) : M.transpose.coeff r c = M.coeff c r :=
  ofFn_coeff _ _ _ hr hc

end MatrixX

namespace LinearClassifier

variable {α : Type} [LinearOrderedCommRing α]

theorem parameters_eq (c : LinearClassifier α) : c.parameters = c._theta.data :=
  VectorX.Map_eq _ _ c._theta.size_eq

/-- Class invariant: the constructor arguments are kept and the weight matrix has shape
`output x (input + 1)`. -/
theorem Reachable.classifier_inv {input output : Nat} {c : LinearClassifier α}
    (h : Reachable input output c) :
    0 < input ∧ 1 < output ∧ c._input = input ∧ c._output = output
      ∧ c._theta.rows = output ∧ c._theta.cols = input + 1 := by
  induction h with
  | ctor rnd eps c h =>
    unfold LinearClassifier.ctor at h
    split at h
    · split at h
      · injection h with h
        subst h
        simp [MatrixX.scale, MatrixX.Random, *]
      · exact absurd h (by simp)
    · exact absurd h (by simp)
  | set_parameters c c' v hc h ih =>
    unfold LinearClassifier.set_parameters at h
    split at h
    · injection h with h
      subst h
      obtain ⟨h1, h2, h3, h4, -, -⟩ := ih
      simp [MatrixX.Map, h1, h2, h3, h4]
    · exact absurd h (by simp)
  | set_theta c c' M hc h ih =>
    unfold LinearClassifier.set_theta at h
    split at h
    · split at h
      · injection h with h
        subst h
        obtain ⟨h1, h2, h3, h4, -, -⟩ := ih
        simp_all
      · exact absurd h (by simp)
    · exact absurd h (by simp)

/-- Result of `classify` on features with the right column count. -/
theorem classify_eq (c : LinearClassifier α) (hθ : c._theta.cols = c._input + 1)
    (hpos : 0 < c._theta.rows) (uninit : Nat → α) (F : MatrixX α) (hF : F.cols = c._input) :
    ∃ conf, c.classify uninit F = some ((List.range F.rows).map
        (fun i => ((maxCoeff (conf.col i)).map Prod.snd).getD 0), conf)
      ∧ conf.rows = c._theta.rows ∧ conf.cols = F.rows
      ∧ ∀ r i, r < c._theta.rows → i < F.rows →
          conf.coeff r i = c._theta.coeff r 0
            + ∑ j in Finset.range c._input, c._theta.coeff r (j + 1) * F.coeff i j := by
  obtain ⟨x1, x, hx1, hx, hxr, hxc, hxcoeff⟩ := MatrixX.bias_matrix uninit F
  have hxc' : x.cols = c._input + 1 := by rw [hxc, hF]
  have hmul : c._theta.cols = x.transpose.rows := by rw [hθ]; simp [MatrixX.transpose, hxc']
  rw [classify, if_pos hF]
  simp only [hx1, hx, _score, if_pos hxc', MatrixX.mul, if_pos hmul, bind, Option.bind]
  generalize hconf : MatrixX.ofFn c._theta.rows x.transpose.cols (fun r c_1 =>
    (List.map (fun k => c._theta.coeff r k * x.transpose.coeff k c_1)
      (List.range c._theta.cols)).sum) = conf
  have hcr : conf.rows = c._theta.rows := by rw [← hconf]; rfl
  have hcc : conf.cols = F.rows := by rw [← hconf]; simp [MatrixX.transpose, hxr]
  have hm : (List.range conf.cols).mapM (fun i => (maxCoeff (conf.col i)).map Prod.snd)
      = some ((List.range conf.cols).map
          (fun i => ((maxCoeff (conf.col i)).map Prod.snd).getD 0)) := by
    apply mapM_option_eq_some
    intro i hi
    have hi' : i < conf.cols := List.mem_range.mp hi
    have hne : conf.col i ≠ [] := by
      intro h
      have hlen := MatrixX.col_length conf hi'
      rw [h, hcr] at hlen
      simp at hlen
      omega
    obtain ⟨v, idx, hmax, -⟩ := maxCoeff_spec _ hne
    simp [hmax]
  refine ⟨conf, ?_, hcr, hcc, ?_⟩
  · rw [hm, hcc]
    rfl
  · intro r i hr hi
    have hi' : i < x.transpose.cols := by simp [MatrixX.transpose, hxr, hi]
    rw [← hconf, MatrixX.ofFn_coeff _ _ _ hr hi', hθ, list_sum_range_eq,
      Finset.sum_range_succ', add_comm]
    congr 1
    · rw [MatrixX.transpose_coeff x (by omega) (by omega), hxcoeff i 0 hi (by omega)]
      simp
    · apply Finset.sum_congr rfl
      intro j hj
      have hj' : j < c._input := Finset.mem_range.mp hj
      rw [MatrixX.transpose_coeff x (by omega) (by omega), hxcoeff i (j + 1) hi (by omega)]
      simp

/-- C2: `classify` on a classifier with `input = n`, `output = k` and features of shape
`m x n` returns normally and leaves in `confidences` the `k x m` matrix of raw linear scores
`confidences(c, i) = theta(c, 0) + sum over j < n of theta(c, j + 1) * features(i, j)`: the
bias is column 0 of the weights and no normalisation is applied. -/
theorem classify_confidences_raw_scores (input output : Nat) (c : LinearClassifier α)
    (hc : Reachable input output c) (uninit : Nat → α) (features : MatrixX α)
    (hcols : features.cols = input) :
    ∃ classification confidences,
      c.classify uninit features = some (classification, confidences)
      ∧ confidences.rows = output ∧ confidences.cols = features.rows
      ∧ ∀ cl i, cl < output → i < features.rows →
          confidences.coeff cl i = c._theta.coeff cl 0
            + ∑ j in Finset.range input, c._theta.coeff cl (j + 1) * features.coeff i j := by
  obtain ⟨-, hout, hin, -, hrows, hθ⟩ := hc.classifier_inv
  obtain ⟨conf, h, hr, hcc, hcoeff⟩ :=
    classify_eq c (by rw [hθ, hin]) (by omega) uninit features (by rw [hcols, hin])
  refine ⟨_, conf, h, by rw [hr, hrows], hcc, ?_⟩
  intro cl i hcl hi
  rw [hcoeff cl i (by omega) hi, hin]

/-- C3: on features with `m` rows and `input` columns `classify` returns normally, leaves in
`confidences` the `output x m` matrix of the linear scores
`theta(c, 0) + sum over j < input of theta(c, j + 1) * features(i, j)`, and returns one class
per example: the class of example `i` is the first row index `r < output` at which column `i`
of that matrix attains its maximum, that is, no class scores higher and every class of lower
index scores strictly lower, so an exact tie goes to the lower index. -/
theorem classify_argmax_lowest_index (input output : Nat) (c : LinearClassifier α)
    (hc : Reachable input output c) (uninit : Nat → α) (features : MatrixX α)
    (hcols : features.cols = input) :
    ∃ classification confidences,
      c.classify uninit features = some (classification, confidences)
      ∧ confidences.rows = output ∧ confidences.cols = features.rows
      ∧ (∀ cl i, cl < output → i < features.rows →
          confidences.coeff cl i = c._theta.coeff cl 0
            + ∑ j in Finset.range input, c._theta.coeff cl (j + 1) * features.coeff i j)
      ∧ classification.length = features.rows
      ∧ ∀ i, i < features.rows → ∃ r, classification[i]? = some r ∧ r < output
          ∧ (∀ q, q < output → confidences.coeff q i ≤ confidences.coeff r i)
          ∧ ∀ q, q < r → confidences.coeff q i < confidences.coeff r i := by
  obtain ⟨-, hout, hin, -, hrows, hθ⟩ := hc.classifier_inv
  obtain ⟨conf, h, hr, hcc, hcoeff⟩ :=
    classify_eq c (by rw [hθ, hin]) (by omega) uninit features (by rw [hcols, hin])
  have hcr : conf.rows = output := by rw [hr, hrows]
  refine ⟨_, conf, h, hcr, hcc, ?_, by simp, ?_⟩
  · intro cl i hcl hi
    rw [hcoeff cl i (by omega) hi, hin]
  intro i hi
  have hi' : i < conf.cols := by omega
  have hlen := MatrixX.col_length conf hi'
  have hne : conf.col i ≠ [] := by
    intro h0
    rw [h0] at hlen
    simp at hlen
    omega
  obtain ⟨v, idx, hmax, hidx, hle, hlt⟩ := maxCoeff_spec _ hne
  have hidx_lt : idx < conf.rows := by
    have := (List.getElem?_eq_some_iff.mp hidx).1
    omega
  have hv : v = conf.coeff idx i := by
    have := MatrixX.col_getElem? conf hi' hidx_lt
    rw [hidx] at this
    exact Option.some.inj this
  refine ⟨idx, by simp [hi, hmax], by omega, ?_, ?_⟩
  · intro q hq
    rw [← hv]
    exact hle q _ (MatrixX.col_getElem? conf hi' (by omega))
  · intro q hq
    rw [← hv]
    exact hlt q _ hq (MatrixX.col_getElem? conf hi' (by omega))

/-- C4: `parameters()` and `set_parameters()` are mutually inverse: writing back the vector
returned by `parameters()` returns normally in the very same state (so every later
`classify` is unchanged), and after `set_parameters(v)` with `v` of length
`output * (input + 1)` the call `parameters()` returns `v`. -/
theorem parameters_set_parameters_inverse (input output : Nat) (c : LinearClassifier α)
    (hc : Reachable input output c) :
    c.set_parameters c.parameters = .ok c
      ∧ ∀ v : List α, v.length = output * (input + 1) →
          ∃ c', c.set_parameters v = .ok c' ∧ c'.parameters = v := by
  obtain ⟨-, -, hin, hout, hrows, hθ⟩ := hc.classifier_inv
  have hsize : c._theta.size = output * (input + 1) := by rw [MatrixX.size, hrows, hθ]
  have hlen : c._theta.data.length = output * (input + 1) := by
    rw [c._theta.size_eq, hrows, hθ]
  constructor
  · rw [set_parameters, if_pos (by rw [parameters_eq, hlen, hsize])]
    have hθeq : MatrixX.Map c.parameters c._output (c._input + 1) = c._theta := by
      apply MatrixX.ext_data
      · simp [MatrixX.Map, hout, hrows]
      · simp [MatrixX.Map, hin, hθ]
      · rw [parameters_eq, hout, hin]
        exact MatrixX.Map_data _ _ _ hlen
    rw [hθeq]
  · intro v hv
    refine ⟨_, if_pos (by rw [hv, hsize]), ?_⟩
    rw [parameters_eq]
    exact MatrixX.Map_data _ _ _ (by rw [hv, hout, hin])

/-- C5: for a classifier built with `input > 0` and `output > 1`, fresh or after any calls of
`set_parameters` / `set_theta` that returned normally, `parameters()` has
`output * (input + 1)` entries and its entry at position `c * output + r` is `theta(r, c)`
for `r < output` and `c <= input`: it is the column-major flattening of the weights. -/
theorem parameters_column_major (input output : Nat) (c : LinearClassifier α)
    (hc : Reachable input output c) :
    c.parameters.length = output * (input + 1)
      ∧ ∀ r col, r < output → col ≤ input →
          c.parameters[col * output + r]? = some (c._theta.coeff r col) := by
  obtain ⟨-, -, -, -, hrows, hθ⟩ := hc.classifier_inv
  constructor
  · rw [parameters_eq, c._theta.size_eq, hrows, hθ]
  · intro r col hr hcol
    rw [parameters_eq, ← hrows]
    exact MatrixX.coeff_eq_getElem? _ (by omega) (by omega)

/-- C10: shape mismatches are rejected and nothing is coerced: `classify` fails exactly when
`features.cols() != input`; `set_parameters(v)` returns normally when `v` has as many entries
as the weight matrix, `output * (input + 1)`, and otherwise fails its assertion with the
state untouched; `set_theta(M)` returns normally when `M` has shape `output x (input + 1)`
and otherwise fails its assertion with the state untouched. -/
theorem shape_mismatch_rejected (input output : Nat) (c : LinearClassifier α)
    (hc : Reachable input output c) :
    (∀ uninit features, c.classify uninit features = none ↔ features.cols ≠ input)
      ∧ c._theta.size = output * (input + 1)
      ∧ (∀ v : List α, v.length = c._theta.size → ∃ c', c.set_parameters v = .ok c')
      ∧ (∀ v : List α, v.length ≠ c._theta.size → c.set_parameters v = .assertFailed c)
      ∧ (∀ M : MatrixX α, M.rows = output ∧ M.cols = input + 1 →
          c.set_theta M = .ok { c with _theta := M })
      ∧ (∀ M : MatrixX α, ¬ (M.rows = output ∧ M.cols = input + 1) →
          c.set_theta M = .assertFailed c) := by
  obtain ⟨-, hout1, hin, hout, hrows, hθ⟩ := hc.classifier_inv
  refine ⟨?_, by rw [MatrixX.size, hrows, hθ], ?_, ?_, ?_, ?_⟩
  · intro uninit features
    constructor
    · intro hnone hcols
      obtain ⟨conf, h, -⟩ :=
        classify_eq c (by rw [hθ, hin]) (by omega) uninit features (by rw [hcols, hin])
      rw [h] at hnone
      exact absurd hnone (by simp)
    · intro hne
      rw [classify, if_neg (by rw [hin]; exact hne)]
  · intro v hv
    exact ⟨_, if_pos hv⟩
  · intro v hv
    exact if_neg hv
  · intro M hM
    rw [set_theta, if_pos (by rw [hout]; exact hM.1), if_pos (by rw [hin]; exact hM.2)]
  · intro M hM
    rw [set_theta]
    by_cases h1 : M.rows = c._output
    · rw [if_pos h1, if_neg]
      intro h2
      exact hM ⟨by rw [h1, hout], by rw [h2, hin]⟩
    · rw [if_neg h1]

end LinearClassifier

/-! ## Vector blocks and reshaping -/

namespace VectorX

variable {α : Type}

theorem uninitialized_length (u : Nat → α) (n : Nat) : (uninitialized u n).length = n := by
  simp [uninitialized]

theorem block_eq (v : List α) (start len : Nat) (h : start + len ≤ v.length) :
    block v start len = some ((v.drop start).take len) := if_pos h

theorem block_length {v b : List α} {start len : Nat} (h : block v start len = some b) :
    b.length = len := by
  unfold block at h
  split at h
  · injection h with h
    subst h
    simp
    omega
  · exact absurd h (by simp)

/-- One block assignment in a left-to-right fill: the vector already holds `p` in front of the
rest of the original buffer `g`. -/
theorem setBlock_step (g p s : List α) (hp : p.length ≤ g.length) :
    setBlock (p ++ g.drop p.length) p.length s.length s
      = if p.length + s.length ≤ g.length then some ((p ++ s) ++ g.drop (p ++ s).length)
        else none := by
  have hlen : (p ++ g.drop p.length).length = g.length := by simp; omega
  unfold setBlock
  rw [hlen]
  by_cases h : p.length + s.length ≤ g.length
  · rw [if_pos ⟨h, rfl⟩, if_pos h]
    congr 1
    rw [List.take_left, List.drop_append_eq_append_drop]
    simp [List.drop_drop, Nat.add_comm]
  · rw [if_neg (fun hh => h hh.1), if_neg h]

/-- Three consecutive block assignments starting at offset 0 fill the front of the vector
with the three sources, provided they fit. -/
theorem setBlock_chain (g s1 s2 s3 : List α)
    (h : s1.length + s2.length + s3.length ≤ g.length) :
    ∃ g1 g2, setBlock g 0 s1.length s1 = some g1
      ∧ setBlock g1 s1.length s2.length s2 = some g2
      ∧ setBlock g2 (s1.length + s2.length) s3.length s3
          = some (s1 ++ s2 ++ s3 ++ g.drop (s1.length + s2.length + s3.length)) := by
  have e1 := setBlock_step g [] s1 (by simp)
  have e2 := setBlock_step g s1 s2 (by omega)
  have e3 := setBlock_step g (s1 ++ s2) s3 (by simp; omega)
  simp only [List.nil_append, List.length_nil, List.drop_zero, Nat.zero_add,
    List.length_append] at e1 e2 e3
  rw [if_pos (by omega)] at e1 e2 e3
  exact ⟨_, _, e1, e2, by rw [e3]⟩

end VectorX

theorem ravel_length {α : Type} (M : MatrixX α) : (ravel M).length = M.size := M.size_eq

theorem unravel_ravel {α : Type} [Zero α] (M : MatrixX α) :
    unravel (ravel M) M.rows M.cols = M :=
  MatrixX.ext_data rfl rfl (MatrixX.Map_data _ _ _ M.size_eq)

theorem ravel_unravel {α : Type} [Zero α] (v : List α) (r c : Nat) (h : v.length = r * c) :
    ravel (unravel v r c) = v :=
  MatrixX.Map_data _ _ _ h

/-! ## Tied autoencoder: `loss` and `gradient` -/

theorem VectorX.blocks_of_length {α : Type} (coeffs : List α) (h n : Nat)
    (hlen : coeffs.length = h * n + h + n) :
    VectorX.block coeffs 0 (h * n) = some (coeffs.take (h * n))
      ∧ VectorX.block coeffs (h * n) h = some ((coeffs.drop (h * n)).take h)
      ∧ VectorX.block coeffs (h * n + h) n = some ((coeffs.drop (h * n + h)).take n) := by
  refine ⟨?_, VectorX.block_eq _ _ _ (by omega), VectorX.block_eq _ _ _ (by omega)⟩
  rw [VectorX.block_eq _ _ _ (by omega)]
  simp

theorem MatrixX.add_transpose {α : Type} [Zero α] [Add α] (A B : MatrixX α)
    (hr : B.cols = A.rows) (hc : B.rows = A.cols) :
    ∃ S, A.add B.transpose = some S ∧ S.rows = A.rows ∧ S.cols = A.cols
      ∧ ∀ r c, r < A.rows → c < A.cols → S.coeff r c = A.coeff r c + B.coeff c r := by
  have hshape : A.rows = B.transpose.rows ∧ A.cols = B.transpose.cols := by
    simp [MatrixX.transpose, hr, hc]
  refine ⟨_, if_pos hshape, rfl, rfl, ?_⟩
  intro r c hlr hlc
  rw [MatrixX.ofFn_coeff _ _ _ hlr hlc,
    MatrixX.transpose_coeff B (by omega) (by omega)]

namespace TiedAutoencoder

variable {H R O α : Type} [LinearOrderedCommRing α]

/-- Packing of the four gradient blocks into a fresh vector of `h*n + h + n` entries, as done
at the end of `gradient` and of `loss_and_gradient`. -/
theorem pack_gradient (uninit : Nat → α) (h n : Nat) (wg wtg : MatrixX α) (hg rg : List α)
    (hwg : wg.rows = h ∧ wg.cols = n) (hhg : hg.length = h)
    (hwtg : wtg.rows = n ∧ wtg.cols = h) (hrg : rg.length = n) :
    ∃ S g1 g2, wg.add wtg.transpose = some S
      ∧ (∀ r c, r < h → c < n → S.coeff r c = wg.coeff r c + wtg.coeff c r)
      ∧ S.rows = h ∧ S.cols = n
      ∧ VectorX.setBlock (VectorX.uninitialized uninit (h * n + h + n)) 0 wg.size (ravel S)
          = some g1
      ∧ VectorX.setBlock g1 wg.size hg.length hg = some g2
      ∧ VectorX.setBlock g2 (wg.size + hg.length) rg.length rg
          = some (ravel S ++ hg ++ rg) := by
  obtain ⟨S, hS, hSr, hSc, hScoeff⟩ :=
    MatrixX.add_transpose wg wtg (by rw [hwtg.2, hwg.1]) (by rw [hwtg.1, hwg.2])
  have hSlen : (ravel S).length = wg.size := by
    rw [ravel_length, MatrixX.size, MatrixX.size, hSr, hSc]
  have hsize : wg.size = h * n := by rw [MatrixX.size, hwg.1, hwg.2]
  obtain ⟨g1, g2, e1, e2, e3⟩ := VectorX.setBlock_chain
    (VectorX.uninitialized uninit (h * n + h + n)) (ravel S) hg rg
    (by rw [VectorX.uninitialized_length, hSlen, hsize, hhg, hrg])
  rw [hSlen] at e1 e2 e3
  refine ⟨S, g1, g2, hS, ?_, by rw [hSr, hwg.1], by rw [hSc, hwg.2], e1, e2, ?_⟩
  · intro r c hr hc
    exact hScoeff r c (by omega) (by omega)
  · rw [e3, List.drop_of_length_le, List.append_nil]
    rw [VectorX.uninitialized_length, hsize, hhg, hrg]

/-- C1: `gradient` on a flat vector of length `h*n + h + n`, when the collaborator (called
with encode weights `W = unravel(coeffs[0 .. h*n), h, n)`, hidden intercepts
`coeffs[h*n .. h*n+h)`, decode weights `transpose(W)` and reconstruction intercepts
`coeffs[h*n+h .. h*n+h+n)`) returns blocks of shapes `h x n`, `h`, `n x h` and `n`, returns a
vector as long as `coeffs` whose first `h*n` entries are
`ravel(weights_grad + transpose(weights_transp_grad))` (entry `c*h + r` is
`weights_grad(r, c) + weights_transp_grad(c, r)`), whose next `h` entries are
`hid_inter_grad` and whose last `n` entries are `rec_inter_grad`. -/
theorem gradient_sums_tied_weights (impl : AutoencoderImpl H R α) (uninit : Nat → α)
    (self : TiedAutoencoder H R O α) (coeffs : List α) (input target : MatrixX α)
    (weights_grad weights_transp_grad : MatrixX α) (hid_inter_grad rec_inter_grad : List α)
    (hlen : coeffs.length
      = self._hidden_units * input.rows + self._hidden_units + input.rows)
    (hcollab : impl.gradient self._hidden_activation self._reconstruction_activation
        (unravel (coeffs.take (self._hidden_units * input.rows))
          self._hidden_units input.rows)
        ((coeffs.drop (self._hidden_units * input.rows)).take self._hidden_units)
        (unravel (coeffs.take (self._hidden_units * input.rows))
          self._hidden_units input.rows).transpose
        ((coeffs.drop (self._hidden_units * input.rows + self._hidden_units)).take
          input.rows)
        self._regularization input target
      = (weights_grad, hid_inter_grad, weights_transp_grad, rec_inter_grad))
    (hwg : weights_grad.rows = self._hidden_units ∧ weights_grad.cols = input.rows)
    (hhg : hid_inter_grad.length = self._hidden_units)
    (hwtg : weights_transp_grad.rows = input.rows
      ∧ weights_transp_grad.cols = self._hidden_units)
    (hrg : rec_inter_grad.length = input.rows) :
    ∃ gradient sum, self.gradient impl uninit coeffs input target = some gradient
      ∧ gradient.length = coeffs.length
      ∧ weights_grad.add weights_transp_grad.transpose = some sum
      ∧ gradient.take (self._hidden_units * input.rows) = ravel sum
      ∧ (∀ r c, r < self._hidden_units → c < input.rows →
          gradient[c * self._hidden_units + r]?
            = some (weights_grad.coeff r c + weights_transp_grad.coeff c r))
      ∧ (gradient.drop (self._hidden_units * input.rows)).take self._hidden_units
          = hid_inter_grad
      ∧ gradient.drop (self._hidden_units * input.rows + self._hidden_units)
          = rec_inter_grad := by
  obtain ⟨hb1, hb2, hb3⟩ := VectorX.blocks_of_length coeffs _ _ hlen
  obtain ⟨S, g1, g2, hS, hScoeff, hSr, hSc, e1, e2, e3⟩ :=
    pack_gradient uninit _ _ weights_grad weights_transp_grad hid_inter_grad rec_inter_grad
      hwg hhg hwtg hrg
  have hSlen : (ravel S).length = self._hidden_units * input.rows := by
    rw [ravel_length, MatrixX.size, hSr, hSc]
  refine ⟨ravel S ++ hid_inter_grad ++ rec_inter_grad, S, ?_, ?_, hS, ?_, ?_, ?_, ?_⟩
  · simp only [gradient, hb1, hb2, hb3, bind, Option.bind, hcollab, hlen, hS, e1, e2, e3]
  · simp [hSlen, hhg, hrg, hlen, Nat.add_assoc]
  · rw [List.append_assoc, ← hSlen, List.take_left]
  · intro r c hr hc
    have hidx : c * self._hidden_units + r < (ravel S).length := by
      rw [hSlen, Nat.mul_comm self._hidden_units]
      calc c * self._hidden_units + r < c * self._hidden_units + self._hidden_units := by omega
        _ = (c + 1) * self._hidden_units := by ring
        _ ≤ input.rows * self._hidden_units := Nat.mul_le_mul_right _ hc
    rw [List.append_assoc, List.getElem?_append_left hidx, ← hScoeff r c hr hc]
    have := @MatrixX.coeff_eq_getElem? α _ S r c (by omega) (by omega)
    rw [hSr] at this
    exact this
  · rw [List.append_assoc, ← hSlen, List.drop_left, ← hhg, List.take_left]
  · have : self._hidden_units * input.rows + self._hidden_units
        = (ravel S ++ hid_inter_grad).length := by simp [hSlen, hhg]
    rw [this, List.drop_left]

/-- Value of `loss` on a flat vector of the right length. -/
theorem loss_of_length (impl : AutoencoderImpl H R α) (self : TiedAutoencoder H R O α)
    (coeffs : List α) (input target : MatrixX α)
    (hlen : coeffs.length
      = self._hidden_units * input.rows + self._hidden_units + input.rows) :
    self.loss impl coeffs input target
      = some (impl.loss self._hidden_activation self._reconstruction_activation
          (unravel (coeffs.take (self._hidden_units * input.rows))
            self._hidden_units input.rows)
          ((coeffs.drop (self._hidden_units * input.rows)).take self._hidden_units)
          (unravel (coeffs.take (self._hidden_units * input.rows))
            self._hidden_units input.rows).transpose
          ((coeffs.drop (self._hidden_units * input.rows + self._hidden_units)).take
            input.rows)
          self._regularization input target) := by
  obtain ⟨hb1, hb2, hb3⟩ := VectorX.blocks_of_length coeffs _ _ hlen
  simp only [loss, hb1, hb2, hb3, bind, Option.bind, pure]

/-- C6: `loss` on a flat vector of length `h*n + h + n` returns the collaborator's loss at
encode weights `W = unravel(coeffs[0 .. h*n), h, n)`, hidden intercepts
`coeffs[h*n .. h*n+h)`, decode weights `transpose(W)`, reconstruction intercepts
`coeffs[h*n+h .. h*n+h+n)`, the regularization strength, input and target; replacing the
stored weights, intercepts and fitted flag by anything else does not change it. -/
theorem loss_unpacks_tied (impl : AutoencoderImpl H R α) (self : TiedAutoencoder H R O α)
    (coeffs : List α) (input target : MatrixX α)
    (hlen : coeffs.length
      = self._hidden_units * input.rows + self._hidden_units + input.rows) :
    self.loss impl coeffs input target
        = some (impl.loss self._hidden_activation self._reconstruction_activation
            (unravel (coeffs.take (self._hidden_units * input.rows))
              self._hidden_units input.rows)
            ((coeffs.drop (self._hidden_units * input.rows)).take self._hidden_units)
            (unravel (coeffs.take (self._hidden_units * input.rows))
              self._hidden_units input.rows).transpose
            ((coeffs.drop (self._hidden_units * input.rows + self._hidden_units)).take
              input.rows)
            self._regularization input target)
      ∧ ∀ (W : MatrixX α) (hi ri : List α) (f : Bool),
          ({ self with _weights := W, _hidden_intercepts := hi,
                       _reconstruction_intercepts := ri, _fitted := f } :
              TiedAutoencoder H R O α).loss impl coeffs input target
            = self.loss impl coeffs input target := by
  constructor
  · exact loss_of_length impl self coeffs input target hlen
  · intro W hi ri f
    rfl

end TiedAutoencoder

/-! ## Tied autoencoder: `loss_and_gradient` -/

namespace TiedAutoencoder

variable {H R O α : Type} [LinearOrderedCommRing α]

/-- C7: when the collaborator's combined `loss_and_gradient` returns, on the arguments
unpacked from `coeffs`, the loss of its `loss` and the four blocks of its `gradient`, the
model's `loss_and_gradient(coeffs, input, target)` is the pair of the model's `loss` and
`gradient` on the same arguments: `loss` returns a value `l`, and `loss_and_gradient` returns
`(l, g)` exactly when `gradient` returns `g`. When moreover the blocks have the shapes
`h x n`, `h`, `n x h`, `n`, `gradient` returns some `g` and `loss_and_gradient` returns
`(l, g)` whatever the freshly allocated gradient vectors held. -/
theorem loss_and_gradient_agrees (impl : AutoencoderImpl H R α) (uninit : Nat → α)
    (self : TiedAutoencoder H R O α) (coeffs : List α) (input target : MatrixX α)
    (hlen : coeffs.length
      = self._hidden_units * input.rows + self._hidden_units + input.rows)
    (hagree : impl.loss_and_gradient self._hidden_activation self._reconstruction_activation
        (unravel (coeffs.take (self._hidden_units * input.rows))
          self._hidden_units input.rows)
        ((coeffs.drop (self._hidden_units * input.rows)).take self._hidden_units)
        (unravel (coeffs.take (self._hidden_units * input.rows))
          self._hidden_units input.rows).transpose
        ((coeffs.drop (self._hidden_units * input.rows + self._hidden_units)).take
          input.rows)
        self._regularization input target
      = (impl.loss self._hidden_activation self._reconstruction_activation
          (unravel (coeffs.take (self._hidden_units * input.rows))
            self._hidden_units input.rows)
          ((coeffs.drop (self._hidden_units * input.rows)).take self._hidden_units)
          (unravel (coeffs.take (self._hidden_units * input.rows))
            self._hidden_units input.rows).transpose
          ((coeffs.drop (self._hidden_units * input.rows + self._hidden_units)).take
            input.rows)
          self._regularization input target,
        impl.gradient self._hidden_activation self._reconstruction_activation
          (unravel (coeffs.take (self._hidden_units * input.rows))
            self._hidden_units input.rows)
          ((coeffs.drop (self._hidden_units * input.rows)).take self._hidden_units)
          (unravel (coeffs.take (self._hidden_units * input.rows))
            self._hidden_units input.rows).transpose
          ((coeffs.drop (self._hidden_units * input.rows + self._hidden_units)).take
            input.rows)
          self._regularization input target)) :
    ∃ l, self.loss impl coeffs input target = some l
      ∧ self.loss_and_gradient impl uninit coeffs input target
          = (self.gradient impl uninit coeffs input target).map (fun g => (l, g))
      ∧ ∀ wg hg wtg rg,
          impl.gradient self._hidden_activation self._reconstruction_activation
              (unravel (coeffs.take (self._hidden_units * input.rows))
                self._hidden_units input.rows)
              ((coeffs.drop (self._hidden_units * input.rows)).take self._hidden_units)
              (unravel (coeffs.take (self._hidden_units * input.rows))
                self._hidden_units input.rows).transpose
              ((coeffs.drop (self._hidden_units * input.rows + self._hidden_units)).take
                input.rows)
              self._regularization input target = (wg, hg, wtg, rg) →
          wg.rows = self._hidden_units ∧ wg.cols = input.rows → hg.length = self._hidden_units →
          wtg.rows = input.rows ∧ wtg.cols = self._hidden_units → rg.length = input.rows →
          ∃ g, ∀ u v : Nat → α, self.gradient impl u coeffs input target = some g
            ∧ self.loss_and_gradient impl v coeffs input target = some (l, g) := by
  obtain ⟨hb1, hb2, hb3⟩ := VectorX.blocks_of_length coeffs _ _ hlen
  refine ⟨_, loss_of_length impl self coeffs input target hlen, ?_, ?_⟩
  · rcases hgr : impl.gradient self._hidden_activation self._reconstruction_activation
        (unravel (coeffs.take (self._hidden_units * input.rows))
          self._hidden_units input.rows)
        ((coeffs.drop (self._hidden_units * input.rows)).take self._hidden_units)
        (unravel (coeffs.take (self._hidden_units * input.rows))
          self._hidden_units input.rows).transpose
        ((coeffs.drop (self._hidden_units * input.rows + self._hidden_units)).take
          input.rows)
        self._regularization input target with ⟨wg, hg, wtg, rg⟩
    rw [hgr] at hagree
    simp only [loss_and_gradient, gradient, hb1, hb2, hb3, bind, Option.bind, hagree, hgr]
    cases wg.add wtg.transpose with
    | none => rfl
    | some S =>
      dsimp only
      cases VectorX.setBlock (VectorX.uninitialized uninit coeffs.length) 0 wg.size (ravel S) with
      | none => rfl
      | some g1 =>
        dsimp only
        cases VectorX.setBlock g1 wg.size hg.length hg with
        | none => rfl
        | some g2 =>
          dsimp only
          cases VectorX.setBlock g2 (wg.size + hg.length) rg.length rg with
          | none => rfl
          | some g3 => rfl
  · intro wg hg wtg rg hcollab hwg hhg hwtg hrg
    refine ⟨ravel ((wg.add wtg.transpose).getD wg) ++ hg ++ rg, ?_⟩
    intro u v
    obtain ⟨S, g1, g2, hS, -, -, -, e1, e2, e3⟩ :=
      pack_gradient u _ _ wg wtg hg rg hwg hhg hwtg hrg
    obtain ⟨S', g1', g2', hS', -, -, -, e1', e2', e3'⟩ :=
      pack_gradient v _ _ wg wtg hg rg hwg hhg hwtg hrg
    rw [hS] at hS'
    cases Option.some.inj hS'
    constructor
    · simp only [gradient, hb1, hb2, hb3, bind, Option.bind, hcollab, hlen, hS, e1, e2, e3,
        Option.getD_some]
    · rw [hcollab] at hagree
      simp only [loss_and_gradient, hb1, hb2, hb3, bind, Option.bind, hagree, hlen,
        hS, e1', e2', e3', Option.getD_some, pure]

end TiedAutoencoder

/-! ## Tied autoencoder: `fit` -/

namespace TiedAutoencoder

variable {H R O α : Type} [LinearOrderedCommRing α]

theorem fitStore_some {self m' : TiedAutoencoder H R O α} {input : MatrixX α}
    {coeffs : List α} (h : self.fitStore input coeffs = some m') :
    m'._fitted = true ∧ m'._hidden_units = self._hidden_units
      ∧ m'._weights.rows = self._hidden_units ∧ m'._weights.cols = input.rows
      ∧ m'._hidden_intercepts.length = self._hidden_units
      ∧ m'._reconstruction_intercepts.length = input.rows := by
  simp only [fitStore, bind, Option.bind_eq_some, pure] at h
  obtain ⟨w, -, hi, hhi, ri, hri, hm⟩ := h
  cases Option.some.inj hm
  exact ⟨rfl, rfl, rfl, rfl, VectorX.block_length hhi, VectorX.block_length hri⟩

theorem fitStore_of_length (self : TiedAutoencoder H R O α) (input : MatrixX α)
    (coeffs : List α)
    (hlen : coeffs.length
      = self._hidden_units * input.rows + self._hidden_units + input.rows) :
    self.fitStore input coeffs = some { self with
      _weights := unravel (coeffs.take (self._hidden_units * input.rows))
        self._hidden_units input.rows
      _hidden_intercepts :=
        (coeffs.drop (self._hidden_units * input.rows)).take self._hidden_units
      _reconstruction_intercepts :=
        (coeffs.drop (self._hidden_units * input.rows + self._hidden_units)).take input.rows
      _fitted := true } := by
  obtain ⟨hb1, hb2, hb3⟩ := VectorX.blocks_of_length coeffs _ _ hlen
  simp only [fitStore, hb1, hb2, hb3, bind, Option.bind, pure]

/-- Invariant of fitted models: the stored blocks have the shapes `h x n`, `h` and `n`. -/
theorem Reachable.fitted_inv
    {optimizer : O → TiedAutoencoder H R O α → MatrixX α → MatrixX α → List α → Bool → List α}
    {m : TiedAutoencoder H R O α} (hr : Reachable optimizer m) (hf : m._fitted = true) :
    m._weights.rows = m._hidden_units ∧ m._hidden_intercepts.length = m._hidden_units
      ∧ m._reconstruction_intercepts.length = m._weights.cols := by
  cases hr with
  | ctor hidden_units ha ra o reg => simp [TiedAutoencoder.ctor] at hf
  | fit m0 _ uninit rnd scale input cold_start hm h =>
    simp only [TiedAutoencoder.fit, bind, Option.bind_eq_some] at h
    obtain ⟨init, -, hstore⟩ := h
    obtain ⟨-, hu, hr, hc, hhi, hri⟩ := fitStore_some hstore
    exact ⟨by rw [hr, hu], by rw [hhi, hu], by rw [hri, hc]⟩

omit [LinearOrderedCommRing α] in
/-- The initial vector of `fit`: random on a cold start or an unfitted model, otherwise the
stored blocks in front of the rest of the fresh buffer, provided they fit. -/
theorem fitInit_eq (uninit rnd : Nat → α) (scale : Nat → α → α)
    (self : TiedAutoencoder H R O α) (input : MatrixX α) (cold_start : Bool)
    (hfits : self._fitted = true → cold_start = false →
      self._weights.size + self._hidden_intercepts.length
          + self._reconstruction_intercepts.length
        ≤ self._hidden_units * input.rows + self._hidden_units + input.rows) :
    ∃ init, self.fitInit uninit rnd scale input cold_start = some init
      ∧ init.length = self._hidden_units * input.rows + self._hidden_units + input.rows
      ∧ (self._fitted = true → cold_start = false →
          init = ravel self._weights ++ self._hidden_intercepts
            ++ self._reconstruction_intercepts
            ++ (VectorX.uninitialized uninit
                (self._hidden_units * input.rows + self._hidden_units + input.rows)).drop
              (self._weights.size + self._hidden_intercepts.length
                + self._reconstruction_intercepts.length)) := by
  by_cases hw : self._fitted = true ∧ cold_start = false
  · obtain ⟨hf, hcs⟩ := hw
    have hle := hfits hf hcs
    obtain ⟨g1, g2, e1, e2, e3⟩ := VectorX.setBlock_chain
      (VectorX.uninitialized uninit
        (self._hidden_units * input.rows + self._hidden_units + input.rows))
      (ravel self._weights) self._hidden_intercepts self._reconstruction_intercepts
      (by rw [ravel_length, VectorX.uninitialized_length]; exact hle)
    rw [ravel_length] at e1 e2 e3
    refine ⟨_, ?_, ?_, fun _ _ => rfl⟩
    · simp only [fitInit, hf, hcs, Bool.not_false, Bool.and_self, if_true, e1, e2, e3, bind,
        Option.bind]
    · simp [ravel_length, VectorX.uninitialized_length]
      omega
  · refine ⟨(List.range (VectorX.uninitialized uninit
        (self._hidden_units * input.rows + self._hidden_units + input.rows)).length).map
        (fun k => scale (self._hidden_units + input.rows) (rnd k)), ?_, ?_, ?_⟩
    · have hcond : (self._fitted && !cold_start) = false := by
        cases hf : self._fitted <;> cases hcs : cold_start <;> simp_all
      simp only [fitInit, hcond, Bool.false_eq_true, if_false]
    · simp [VectorX.uninitialized_length]
    · intro hf hcs
      exact absurd (And.intro hf hcs) hw

end TiedAutoencoder

/-! ## Tied autoencoder: results on `fit` -/

namespace TiedAutoencoder

variable {H R O α : Type} [LinearOrderedCommRing α]

/-- A fitted model with weights of shape `h x n` and `h` hidden intercepts transforms any
input with `n` rows. -/
theorem transform_some (compute : H → MatrixX α → MatrixX α) (m : TiedAutoencoder H R O α)
    (X : MatrixX α) (hf : m._fitted = true) (hc : m._weights.cols = X.rows)
    (hi : m._hidden_intercepts.length = m._weights.rows) :
    ∃ y, m.transform compute X = some y := by
  have hadd : m._hidden_intercepts.length
      = (MatrixX.ofFn m._weights.rows X.cols (fun r c =>
          ((List.range m._weights.cols).map
            (fun k => m._weights.coeff r k * X.coeff k c)).sum)).rows := by
    rw [hi]
    rfl
  simp only [transform, hf, if_true, MatrixX.mul, if_pos hc, MatrixX.colwiseAdd, bind,
    Option.bind, if_pos hadd, pure]
  exact ⟨_, rfl⟩

/-- C8 (amended): for every input with `n` rows and either value of `cold_start`, provided
that on a warm start of a fitted model the stored weights and intercepts together have at
most `h*n + h + n` entries, `fit` builds an initial vector of length `h*n + h + n`, calls the
optimizer with the model itself, `input` as input and target, that vector and `cold_start`,
and, if the optimizer returns `coeffs` of that length, ends with weights
`unravel(coeffs[0 .. h*n), h, n)`, hidden intercepts `coeffs[h*n .. h*n+h)`, reconstruction
intercepts `coeffs[h*n+h .. h*n+h+n)` and the fitted flag set, so that `transform` accepts
every input with `n` rows. -/
theorem fit_stores_optimizer_result
    (optimizer : O → TiedAutoencoder H R O α → MatrixX α → MatrixX α → List α → Bool → List α)
    (uninit rnd : Nat → α) (scale : Nat → α → α) (self : TiedAutoencoder H R O α)
    (input : MatrixX α) (cold_start : Bool)
    (hfits : self._fitted = true → cold_start = false →
      self._weights.size + self._hidden_intercepts.length
          + self._reconstruction_intercepts.length
        ≤ self._hidden_units * input.rows + self._hidden_units + input.rows) :
    ∃ init, self.fitInit uninit rnd scale input cold_start = some init
      ∧ init.length = self._hidden_units * input.rows + self._hidden_units + input.rows
      ∧ self.fit optimizer uninit rnd scale input cold_start
          = self.fitStore input (optimizer self._optimizer self input input init cold_start)
      ∧ ∀ coeffs, optimizer self._optimizer self input input init cold_start = coeffs →
          coeffs.length
            = self._hidden_units * input.rows + self._hidden_units + input.rows →
          ∃ m', self.fit optimizer uninit rnd scale input cold_start = some m'
            ∧ m'._weights = unravel (coeffs.take (self._hidden_units * input.rows))
                self._hidden_units input.rows
            ∧ m'._hidden_intercepts
                = (coeffs.drop (self._hidden_units * input.rows)).take self._hidden_units
            ∧ m'._reconstruction_intercepts
                = (coeffs.drop (self._hidden_units * input.rows + self._hidden_units)).take
                    input.rows
            ∧ m'._fitted = true
            ∧ ∀ (compute : H → MatrixX α → MatrixX α) (X : MatrixX α), X.rows = input.rows →
                ∃ y, m'.transform compute X = some y := by
  obtain ⟨init, hinit, hlen, -⟩ := fitInit_eq uninit rnd scale self input cold_start hfits
  have hfit : self.fit optimizer uninit rnd scale input cold_start
      = self.fitStore input (optimizer self._optimizer self input input init cold_start) := by
    simp only [fit, hinit, bind, Option.bind]
  refine ⟨init, hinit, hlen, hfit, ?_⟩
  intro coeffs hco hcl
  rw [hfit, hco, fitStore_of_length self input coeffs hcl]
  refine ⟨_, rfl, rfl, rfl, rfl, rfl, ?_⟩
  intro compute X hX
  apply transform_some
  · rfl
  · simp [unravel, MatrixX.Map, hX]
  · simp [unravel, MatrixX.Map]
    omega

/-- C9: for every fitted model whose weights have shape `h x n` and every input with `n`
rows, `fit(input, cold_start = false)` hands the optimizer the initial vector
`ravel(weights)` followed by the hidden intercepts followed by the reconstruction intercepts;
if the optimizer returns that vector unchanged, `fit` ends in the state it started from:
weights, hidden intercepts and reconstruction intercepts are identical. -/
theorem warm_start_round_trip
    (optimizer : O → TiedAutoencoder H R O α → MatrixX α → MatrixX α → List α → Bool → List α)
    (uninit rnd : Nat → α) (scale : Nat → α → α) (m : TiedAutoencoder H R O α)
    (input : MatrixX α) (hr : Reachable optimizer m) (hf : m._fitted = true)
    (hn : m._weights.cols = input.rows) :
    m.fitInit uninit rnd scale input false
        = some (ravel m._weights ++ m._hidden_intercepts ++ m._reconstruction_intercepts)
      ∧ m.fit optimizer uninit rnd scale input false
          = m.fitStore input (optimizer m._optimizer m input input
              (ravel m._weights ++ m._hidden_intercepts ++ m._reconstruction_intercepts) false)
      ∧ (optimizer m._optimizer m input input
            (ravel m._weights ++ m._hidden_intercepts ++ m._reconstruction_intercepts) false
          = ravel m._weights ++ m._hidden_intercepts ++ m._reconstruction_intercepts →
        m.fit optimizer uninit rnd scale input false = some m) := by
  obtain ⟨hrows, hhi, hri⟩ := hr.fitted_inv hf
  have hsize : m._weights.size = m._hidden_units * input.rows := by
    rw [MatrixX.size, hrows, hn]
  have htotal : m._weights.size + m._hidden_intercepts.length
      + m._reconstruction_intercepts.length
      = m._hidden_units * input.rows + m._hidden_units + input.rows := by
    rw [hsize, hhi, hri, hn]
  obtain ⟨init, hinit, hlen, hform⟩ :=
    fitInit_eq uninit rnd scale m input false (fun _ _ => le_of_eq htotal)
  have hinit_eq : init
      = ravel m._weights ++ m._hidden_intercepts ++ m._reconstruction_intercepts := by
    rw [hform hf rfl, List.drop_of_length_le, List.append_nil]
    rw [VectorX.uninitialized_length, htotal]
  rw [hinit_eq] at hinit hlen
  have hfit : m.fit optimizer uninit rnd scale input false
      = m.fitStore input (optimizer m._optimizer m input input
          (ravel m._weights ++ m._hidden_intercepts ++ m._reconstruction_intercepts) false) := by
    simp only [fit, hinit, bind, Option.bind]
  refine ⟨hinit, hfit, ?_⟩
  intro hid
  rw [hfit, hid, fitStore_of_length m input _ hlen]
  have hrl : (ravel m._weights).length = m._hidden_units * input.rows := by
    rw [ravel_length, hsize]
  have e1 : (ravel m._weights ++ m._hidden_intercepts ++ m._reconstruction_intercepts).take
      (m._hidden_units * input.rows) = ravel m._weights := by
    rw [List.append_assoc, ← hrl, List.take_left]
  have e2 : ((ravel m._weights ++ m._hidden_intercepts ++ m._reconstruction_intercepts).drop
      (m._hidden_units * input.rows)).take m._hidden_units = m._hidden_intercepts := by
    rw [List.append_assoc, ← hrl, List.drop_left]
    conv_lhs => rw [← hhi]
    rw [List.take_left]
  have e3 : ((ravel m._weights ++ m._hidden_intercepts ++ m._reconstruction_intercepts).drop
      (m._hidden_units * input.rows + m._hidden_units)).take input.rows
      = m._reconstruction_intercepts := by
    have : m._hidden_units * input.rows + m._hidden_units
        = (ravel m._weights ++ m._hidden_intercepts).length := by simp [hrl, hhi]
    rw [this, List.drop_left, List.take_of_length_le (by omega)]
  rw [e1, e2, e3]
  have e4 : unravel (ravel m._weights) m._hidden_units input.rows = m._weights := by
    rw [← hrows, ← hn]
    exact unravel_ravel _
  rw [e4]
  cases m
  simp_all

end TiedAutoencoder

/-! ## The results on the concrete instances -/

namespace Example

/-- The example classifier is what the constructor returns. -/
theorem classifier_reachable : LinearClassifier.Reachable 2 3 classifier :=
  LinearClassifier.Reachable.ctor draws 1 classifier rfl

/-- The example fitted model is reached by one cold-start `fit`. -/
theorem fitted3_reachable : TiedAutoencoder.Reachable optimizer fitted3 :=
  TiedAutoencoder.Reachable.fit fresh fitted3 uninit rnd scale input3 true
    (TiedAutoencoder.Reachable.ctor 1 () () () 0) rfl

/-- Gradient layout on the model with one hidden unit and a two-row input. -/
theorem gradient_sums_tied_weights_witness :
    ∃ gradient sum, fresh.gradient impl uninit [1, 2, 3, 4, 5] input2 input2 = some gradient
      ∧ gradient.length = 5
      ∧ (unravel [1, 2] 1 2).add (unravel [1, 2] 1 2).transpose.transpose = some sum
      ∧ gradient.take 2 = ravel sum
      ∧ (∀ r c, r < 1 → c < 2 → gradient[c * 1 + r]?
          = some ((unravel [1, 2] 1 2).coeff r c + (unravel [1, 2] 1 2).transpose.coeff c r))
      ∧ (gradient.drop 2).take 1 = [3]
      ∧ gradient.drop 3 = [4, 5] :=
  TiedAutoencoder.gradient_sums_tied_weights impl uninit fresh [1, 2, 3, 4, 5] input2 input2
    (unravel [1, 2] 1 2) (unravel [1, 2] 1 2).transpose [3] [4, 5] rfl rfl ⟨rfl, rfl⟩ rfl
    ⟨rfl, rfl⟩ rfl

/-- Raw linear scores of the example classifier on the example features. -/
theorem classify_confidences_raw_scores_witness :
    ∃ classification confidences,
      classifier.classify uninit features = some (classification, confidences)
      ∧ confidences.rows = 3 ∧ confidences.cols = 2
      ∧ ∀ cl i, cl < 3 → i < 2 →
          confidences.coeff cl i = classifier._theta.coeff cl 0
            + ∑ j in Finset.range 2, classifier._theta.coeff cl (j + 1) * features.coeff i j :=
  LinearClassifier.classify_confidences_raw_scores 2 3 classifier classifier_reachable uninit
    features rfl

/-- First-maximum classes of the example classifier on the example features: classes 1 and
2 tie for the maximum on both examples and class 1 is returned. -/
theorem classify_argmax_lowest_index_witness :
    (classifier.classify uninit features).map (fun p => (p.1, p.2.data))
        = some ([1, 1], [0, 7, 7, 0, 10, 10])
    ∧ ∃ classification confidences,
      classifier.classify uninit features = some (classification, confidences)
      ∧ confidences.rows = 3 ∧ confidences.cols = 2
      ∧ (∀ cl i, cl < 3 → i < 2 →
          confidences.coeff cl i = classifier._theta.coeff cl 0
            + ∑ j in Finset.range 2, classifier._theta.coeff cl (j + 1) * features.coeff i j)
      ∧ classification.length = 2
      ∧ ∀ i, i < 2 → ∃ r, classification[i]? = some r ∧ r < 3
          ∧ (∀ q, q < 3 → confidences.coeff q i ≤ confidences.coeff r i)
          ∧ ∀ q, q < r → confidences.coeff q i < confidences.coeff r i :=
  ⟨by decide,
    LinearClassifier.classify_argmax_lowest_index 2 3 classifier classifier_reachable uninit
      features rfl⟩

/-- Marshalling round trip on the example classifier. -/
theorem parameters_set_parameters_inverse_witness :
    classifier.set_parameters classifier.parameters = .ok classifier
      ∧ ∀ v : List ℤ, v.length = 3 * (2 + 1) →
          ∃ c', classifier.set_parameters v = .ok c' ∧ c'.parameters = v :=
  LinearClassifier.parameters_set_parameters_inverse 2 3 classifier classifier_reachable

/-- Column-major parameter layout of the example classifier. -/
theorem parameters_column_major_witness :
    classifier.parameters.length = 3 * (2 + 1)
      ∧ ∀ r col, r < 3 → col ≤ 2 →
          classifier.parameters[col * 3 + r]? = some (classifier._theta.coeff r col) :=
  LinearClassifier.parameters_column_major 2 3 classifier classifier_reachable

/-- Loss of the example collaborator on the flat vector `[1, 2, 3, 4, 5]`. -/
theorem loss_unpacks_tied_witness :
    fresh.loss impl [1, 2, 3, 4, 5] input2 input2 = some 12
      ∧ ∀ (W : MatrixX ℤ) (hi ri : List ℤ) (f : Bool),
          ({ fresh with _weights := W, _hidden_intercepts := hi,
                        _reconstruction_intercepts := ri, _fitted := f } :
              TiedAutoencoder Unit Unit Unit ℤ).loss impl [1, 2, 3, 4, 5] input2 input2
            = fresh.loss impl [1, 2, 3, 4, 5] input2 input2 :=
  TiedAutoencoder.loss_unpacks_tied impl fresh [1, 2, 3, 4, 5] input2 input2 rfl

/-- Combined and separate evaluation agree on the example collaborator. -/
theorem loss_and_gradient_agrees_witness :
    ∃ l, fresh.loss impl [1, 2, 3, 4, 5] input2 input2 = some l
      ∧ fresh.loss_and_gradient impl uninit [1, 2, 3, 4, 5] input2 input2
          = (fresh.gradient impl uninit [1, 2, 3, 4, 5] input2 input2).map (fun g => (l, g)) :=
  let ⟨l, h1, h2, _⟩ := TiedAutoencoder.loss_and_gradient_agrees impl uninit fresh
    [1, 2, 3, 4, 5] input2 input2 rfl rfl
  ⟨l, h1, h2⟩

/-- Warm-start `fit` of the example fitted model on an input of the same shape. -/
theorem fit_stores_optimizer_result_witness :
    ∃ init, fitted3.fitInit uninit rnd scale input3 false = some init
      ∧ init.length = 7
      ∧ fitted3.fit optimizer uninit rnd scale input3 false
          = fitted3.fitStore input3 (optimizer () fitted3 input3 input3 init false) :=
  let ⟨init, h1, h2, h3, _⟩ := TiedAutoencoder.fit_stores_optimizer_result optimizer uninit
    rnd scale fitted3 input3 false (fun _ _ => by decide)
  ⟨init, h1, h2, h3⟩

/-- Warm-start round trip of the example fitted model. -/
theorem warm_start_round_trip_witness :
    fitted3.fitInit uninit rnd scale input3 false = some [0, 1, 2, 3, 4, 5, 6]
      ∧ fitted3.fit optimizer uninit rnd scale input3 false = some fitted3 :=
  let ⟨h1, _, h3⟩ := TiedAutoencoder.warm_start_round_trip optimizer uninit rnd scale fitted3
    input3 fitted3_reachable rfl rfl
  ⟨h1, h3 rfl⟩

/-- Shape checks of the example classifier. -/
theorem shape_mismatch_rejected_witness :
    (∀ u F, classifier.classify u F = none ↔ F.cols ≠ 2)
      ∧ classifier._theta.size = 3 * (2 + 1)
      ∧ (∀ v : List ℤ, v.length = classifier._theta.size →
          ∃ c', classifier.set_parameters v = .ok c')
      ∧ (∀ v : List ℤ, v.length ≠ classifier._theta.size →
          classifier.set_parameters v = .assertFailed classifier)
      ∧ (∀ M : MatrixX ℤ, M.rows = 3 ∧ M.cols = 2 + 1 →
          classifier.set_theta M = .ok { classifier with _theta := M })
      ∧ (∀ M : MatrixX ℤ, ¬ (M.rows = 3 ∧ M.cols = 2 + 1) →
          classifier.set_theta M = .assertFailed classifier) :=
  LinearClassifier.shape_mismatch_rejected 2 3 classifier classifier_reachable

/-- C8 (as stated, refuted): the model fitted on a three-row input with one hidden unit stores
`3 + 1 + 3` scalars; a warm-start `fit` on a one-row input allocates an initial vector of
`1 + 1 + 1` entries, the assignment of the hidden-intercept block at offset 3 fails Eigen's
bounds assertion, and the optimizer is never called. -/
theorem fit_warm_start_stale_shape_fails :
    fresh.fit optimizer uninit rnd scale input3 true = some fitted3
      ∧ fitted3.fitInit uninit rnd scale input1 false = none
      ∧ fitted3.fit optimizer uninit rnd scale input1 false = none :=
  ⟨rfl, rfl, rfl⟩

end Example

/-! ## `loadTheta` on files that end early -/

namespace KaggleDigitRecognizer

/-- On a device without read errors `read` never sets `badbit`. -/
theorem IfStream.read_badbit (f : IfStream) (buf : List Nat) (n : Nat)
    (hd : f.deviceError = false) (hb : f.badbit = false) :
    (f.read buf n).1.deviceError = false ∧ (f.read buf n).1.badbit = false := by
  unfold IfStream.read
  split_ifs <;> simp_all

/-- A stream opened on a missing file or on a device without read errors starts with
`badbit` clear. -/
theorem IfStream.ctor_badbit (file : Option File)
    (hfile : ∀ x, file = some x → x.deviceError = false) :
    (IfStream.ctor file).deviceError = false ∧ (IfStream.ctor file).badbit = false := by
  cases file with
  | none => exact ⟨rfl, rfl⟩
  | some x => exact ⟨hfile x rfl, rfl⟩

/-- On a device without read errors the loop of `loadTheta` never reaches its `throw`. -/
theorem loadThetaLoop_never_throws (uninit : Nat → Nat) (canAllocate : Nat → Bool)
    (stackRows stackCols : Nat → List Nat) (todo : List MatrixBytes) :
    ∀ (f : IfStream) (i : Nat) (loaded : List MatrixBytes),
      f.deviceError = false → f.badbit = false →
      loadThetaLoop uninit canAllocate stackRows stackCols f i loaded todo
        ≠ .threwErrorReadingMatrix := by
  induction todo with
  | nil =>
    intro f i loaded _ _
    simp [loadThetaLoop]
  | cons m rest ih =>
    intro f i loaded hd hb
    obtain ⟨hd1, hb1⟩ := IfStream.read_badbit f (stackRows i) sizeofIndex hd hb
    obtain ⟨hd2, hb2⟩ :=
      IfStream.read_badbit (f.read (stackRows i) sizeofIndex).1 (stackCols i) sizeofIndex hd1 hb1
    rw [loadThetaLoop]
    dsimp only
    split
    · simp
    · simp
    · rename_i m' _
      obtain ⟨hd3, hb3⟩ := IfStream.read_badbit
        ((f.read (stackRows i) sizeofIndex).1.read (stackCols i) sizeofIndex).1 m'.bytes
        (sizeofScalar * (decodeIndex (f.read (stackRows i) sizeofIndex).2).toNat
          * (decodeIndex ((f.read (stackRows i) sizeofIndex).1.read (stackCols i)
              sizeofIndex).2).toNat) hd2 hb2
      rw [IfStream.bad, hb3]
      exact ih _ _ _ hd3 hb3

/-- Whatever the file holds, `loadTheta` throws `"Error reading matrix"` only on a device
read error: a file that merely ends early (or cannot be opened) is never reported. -/
theorem loadTheta_never_reports_short_read (uninit : Nat → Nat) (canAllocate : Nat → Bool)
    (stackRows stackCols : Nat → List Nat) (theta : List MatrixBytes) (file : Option File)
    (hfile : ∀ x, file = some x → x.deviceError = false) :
    loadTheta uninit canAllocate stackRows stackCols theta file
      ≠ .threwErrorReadingMatrix := by
  obtain ⟨hd, hb⟩ := IfStream.ctor_badbit file hfile
  exact loadThetaLoop_never_throws uninit canAllocate stackRows stackCols theta _ 0 [] hd hb

namespace Example

/-- C11 (violated by the code): on a file that ends after three of the eight bytes of the
only coefficient, `loadTheta` returns normally with a `1 x 1` matrix made of those three
bytes and five bytes of fresh storage; on a file that ends inside the row count it returns
normally with a matrix whose shape and contents come from the bytes found in the locals and
in fresh storage. The `throw` is reached only when the device reports a read error. -/
theorem loadTheta_accepts_truncated_file :
    loadTheta heap canAllocate stackRows stackCols theta (some payloadCut)
        = .returned [⟨1, 1, [17, 34, 51, 170, 170, 170, 170, 170]⟩]
      ∧ loadTheta heap canAllocate stackRows stackCols theta (some headerCut)
        = .returned [⟨2, 1, List.replicate 16 170⟩]
      ∧ loadTheta heap canAllocate stackRows stackCols theta (some payloadError)
        = .threwErrorReadingMatrix := by
  refine ⟨?_, ?_, ?_⟩ <;> decide

end Example

end KaggleDigitRecognizer

end MLT
